import Mathlib

/-!
Verification development for the `stimulus-typescript` portal relay
(`src/portal-controller.ts`) and its companion helpers (`src/utils.ts`).

The TypeScript code is shallowly embedded: strings are lists of characters
(`Str`), DOM elements are natural-number ids carrying an attribute list,
JS `Map`/`Set` objects are association lists / duplicate-free lists kept in
insertion order (matching JS iteration order), and the mutable relay object
becomes a `PState` record threaded through the operations.  Operations that
can throw in JS return `PState × Bool` where the flag records that an
exception escaped; the returned state is the state at the throw point
(mutations performed before the throw are kept, the rest of the operation is
skipped), matching JS exception semantics.  Hook invocations into component
instances (`controller.context.invokeControllerMethod`) are recorded in a
hook log; whether a particular hook throws is supplied by an oracle
`Θ : Ctrl → Str → Nat → Bool`, and a throwing hook is caught at the call
site (`try/catch/finally` in the source), which the embedding mirrors by
never branching on the oracle outside of the logged flag.
-/

/-- Strings are modelled as lists of characters so that every string
operation is structurally recursive and kernel-evaluable. -/
abbrev Str := List Char

/-- Coercion from Lean string literals to the character-list model. -/
def strOf (s : String) : Str := s.data

/-- JS `String.prototype.trim`: drop whitespace from both ends. -/
def strTrim (s : Str) : Str :=
  ((s.dropWhile Char.isWhitespace).reverse.dropWhile Char.isWhitespace).reverse

/-- JS `Array.prototype.join(sep)` for strings. -/
def strJoin (sep : Str) : List Str → Str
  | [] => []
  | [s] => s
  | s :: rest => s ++ sep ++ strJoin sep rest

/-- Lower-case a character the way the `i` regexp flag compares (ASCII). -/
def lowerChar (c : Char) : Char :=
  if 'A' ≤ c ∧ c ≤ 'Z' then Char.ofNat (c.toNat + 32) else c

/-- Lower-case an entire string. -/
def lowerStr (s : Str) : Str := s.map lowerChar

/-- Upper-case a character (ASCII), as used by `toUpperCase` on the captured
character of the `camelCase` regexp. -/
def upperChar (c : Char) : Char :=
  if 'a' ≤ c ∧ c ≤ 'z' then Char.ofNat (c.toNat - 32) else c

/-- Character class `[-_\s]` of the `camelCase` regexp in `src/utils.ts`. -/
def isSepChar (c : Char) : Bool := c = '-' || c = '_' || c.isWhitespace

/-- Body of the first `replace` of `camelCase`: every run of separators
together with the (optional) following character is replaced by that
character upper-cased.  The regexp `[-_\s]+(.)?` is greedy, so the captured
character is the first non-separator after the run (or nothing at the end of
the string).  Structural recursion on a fuel argument (instantiated with the
string length, which bounds the number of steps) keeps the definition
kernel-evaluable. -/
def camelCaseAux : Nat → Str → Str
  | _, [] => []
  | 0, s => s
  | fuel + 1, c :: rest =>
    if isSepChar c then
      match rest.dropWhile isSepChar with
      | [] => []
      | d :: rest' => upperChar d :: camelCaseAux fuel rest'
    else c :: camelCaseAux fuel rest

/-- `camelCase` from `src/utils.ts`: collapse `[-_\s]+` runs into an
upper-cased following character, then lower-case a leading `[A-Z]`. -/
def camelCase (s : Str) : Str :=
  match camelCaseAux s.length s with
  | [] => []
  | c :: rest => lowerChar c :: rest

/-- `capitalize` from `src/utils.ts`: upper-case the first character. -/
def capitalize : Str → Str
  | [] => []
  | c :: rest => upperChar c :: rest

/-! JS `Map` and `Set` model: association lists and duplicate-free lists
kept in insertion order.  `Map.set` replaces an existing entry in place or
appends; `delete` removes the entry; `Set.add` appends only when absent. -/

/-- JS `Map.prototype.get`. -/
def mapGet {α β : Type} [DecidableEq α] (m : List (α × β)) (k : α) : Option β :=
  match m with
  | [] => none
  | (k', v) :: rest => if k' = k then some v else mapGet rest k

/-- JS `Map.prototype.set`: replace in place or append. -/
def mapSet {α β : Type} [DecidableEq α] (m : List (α × β)) (k : α) (v : β) :
    List (α × β) :=
  match m with
  | [] => [(k, v)]
  | (k', v') :: rest =>
    if k' = k then (k, v) :: rest else (k', v') :: mapSet rest k v

/-- JS `Map.prototype.delete`. -/
def mapDel {α β : Type} [DecidableEq α] (m : List (α × β)) (k : α) :
    List (α × β) :=
  m.filter (fun p => p.1 ≠ k)

/-- JS `Set.prototype.add`. -/
def setAdd {α : Type} [DecidableEq α] (s : List α) (x : α) : List α :=
  if x ∈ s then s else s ++ [x]

/-- JS `Set.prototype.delete`. -/
def setDel {α : Type} [DecidableEq α] (s : List α) (x : α) : List α :=
  s.filter (fun y => y ≠ x)

/-! ### String splitting

JS `String.prototype.split` with a literal separator, implemented with
explicit fuel so that every definition reduces in the kernel. -/

/-- Locate the first occurrence of the (non-empty) separator `sep` in `s`,
returning the part before it and the part after it. -/
def splitFirst (sep : Str) (s : Str) : Option (Str × Str) :=
  match s with
  | [] => none
  | c :: rest =>
    if sep.isPrefixOf (c :: rest) then
      some ([], (c :: rest).drop sep.length)
    else
      match splitFirst sep rest with
      | none => none
      | some (a, b) => some (c :: a, b)

/-- JS `s.split(sep)` for a non-empty literal separator, with fuel. -/
def splitOnFuel (sep : Str) : Nat → Str → List Str
  | 0, s => [s]
  | fuel + 1, s =>
    match splitFirst sep s with
    | none => [s]
    | some (a, b) => a :: splitOnFuel sep fuel b

/-- JS `s.split(sep)` (fuel instantiated with the string length, which
bounds the number of separator occurrences). -/
def splitOn (sep : Str) (s : Str) : List Str := splitOnFuel sep (s.length + 1) s

/-! ### Action directives (`src/portal-controller.ts`, class `Action`) -/

/-- Name prompt prepended to generated forwarding-handler names
(`proxyActionPrefix` in the source). -/
def proxyActionMark : Str := strOf "__proxyAction__"

/-- `class Action` of `src/portal-controller.ts`: an action directive with
optional event, identifier, method, optional modifier and the cached
stringified form. -/
structure PAction where
  event : Option Str
  identifier : Str
  method : Str
  modifier : Option Str
  stringified : Option Str
deriving DecidableEq, Repr

/-- `PAction.toString`: return the cached string if present, otherwise
rebuild `event-></br>identifier#method:modifier` (caching is memoisation of a
pure computation, so the embedding returns the value directly). -/
def PAction.toStr (a : PAction) : Str :=
  match a.stringified with
  | some s => s
  | none =>
    (match a.event with
     | some e => e ++ strOf "->"
     | none => []) ++
    a.identifier ++ strOf "#" ++ a.method ++
    (match a.modifier with
     | some m => strOf ":" ++ m
     | none => [])

/-- `parseActionToken`: destructure `token.split('->')` into `[event, rest]`
(JS array destructuring takes the first two segments; when there is no
`'->'`, `rest` is undefined and the code shifts `event` into `rest`), then
`rest.split('#')` into `[identifier, methodDetails]` and
`methodDetails.split(':')` into `[method, modifier]`.  When `rest` contains
no `'#'`, `methodDetails` is `undefined` and `methodDetails.split` throws a
`TypeError`; the embedding returns `none` for that case.  On success the
constructed `Action` caches the original token as its stringified form. -/
def parseActionToken (token : Str) : Option PAction :=
  let arrowParts := splitOn (strOf "->") token
  let eventRest : Option Str × Str :=
    match arrowParts with
    | [] => (none, token)
    | [e] => (none, e)
    | e :: r :: _ => (some e, r)
  let event := eventRest.1
  let rest := eventRest.2
  match splitOn (strOf "#") rest with
  | [] => none
  | [_] => none
  | identifier :: methodDetails :: _ =>
    match splitOn (strOf ":") methodDetails with
    | [] => none
    | [method] => some ⟨event, identifier, method, none, some token⟩
    | method :: modifier :: _ => some ⟨event, identifier, method, some modifier, some token⟩

example : parseActionToken (strOf "click->a#save") =
    some ⟨some (strOf "click"), strOf "a", strOf "save", none, some (strOf "click->a#save")⟩ := by
  decide

example : parseActionToken (strOf "a#save:prevent") =
    some ⟨none, strOf "a", strOf "save", some (strOf "prevent"), some (strOf "a#save:prevent")⟩ := by
  decide

example : parseActionToken (strOf "abc") = none := by decide

/-! ### Action parameters (`getActionParams`) -/

/-- Shallow model of a JS value produced by `JSON.parse`. -/
inductive JsonVal where
  | num (n : Int)
  | str (s : Str)
  | boolean (b : Bool)
  | nullV
deriving DecidableEq, Repr

/-- Digit-string to natural number. -/
def digitsToNat (l : List Char) : Nat :=
  l.foldl (fun acc c => acc * 10 + (c.toNat - '0'.toNat)) 0

/-- Modelled from the platform: `JSON.parse` restricted to the JSON fragment
exercised by this library's parameter values — integers (`-?` then `0` alone
or a non-zero-leading digit run), the literals `true`/`false`/`null`, and
escape-free double-quoted strings, with optional surrounding whitespace.
Inputs outside this fragment are treated as parse failures (`none`), which
the caller turns into the raw-string fallback. -/
def parseJsonLite (v : Str) : Option JsonVal :=
  let s := strTrim v
  if s = strOf "true" then some (.boolean true)
  else if s = strOf "false" then some (.boolean false)
  else if s = strOf "null" then some .nullV
  else
    match s with
    | '"' :: rest =>
      match rest.reverse with
      | '"' :: midRev =>
        let mid := midRev.reverse
        if mid.all (fun c => c ≠ '"' ∧ c ≠ '\\') then some (.str mid) else none
      | _ => none
    | '-' :: digits =>
      if digits ≠ [] ∧ digits.all Char.isDigit ∧
          (digits.head? ≠ some '0' ∨ digits.length = 1) then
        some (.num (-(digitsToNat digits : Int)))
      else none
    | digits =>
      if digits ≠ [] ∧ digits.all Char.isDigit ∧
          (digits.head? ≠ some '0' ∨ digits.length = 1) then
        some (.num (digitsToNat digits : Int))
      else none

/-- `parseParam` closure inside `getActionParams`: `JSON.parse` with a
raw-string fallback on parse failure. -/
def parseParam (v : Str) : JsonVal :=
  match parseJsonLite v with
  | some j => j
  | none => .str v

/-- Line terminators that the `.` of a JS regexp (without the `s` flag) does
not match. -/
def isLineTerm (c : Char) : Bool :=
  c = '\n' || c = '\r' || c = (Char.ofNat 0x2028) || c = (Char.ofNat 0x2029)

/-- Match of an attribute name against the case-insensitive regexp
`^data-<identifier>-(.+)-param$` built in `getActionParams` (the identifier
is interpolated verbatim; the model covers identifiers that contain no
regexp metacharacters, which holds for every identifier this library
produces).  Both anchors fix the split positions, so the capture — when the
name is long enough — is exactly the segment between the prefix
`data-<identifier>-` and the suffix `-param`; `.` does not cross line
terminators. -/
def matchParam (identifier : Str) (name : Str) : Option Str :=
  let pre := strOf "data-" ++ lowerStr identifier ++ strOf "-"
  let suf := strOf "-param"
  let low := lowerStr name
  if pre.length + 1 + suf.length ≤ name.length then
    let mid := (name.drop pre.length).take (name.length - suf.length - pre.length)
    if pre.isPrefixOf low ∧ suf.isSuffixOf low ∧ mid.all (fun c => ¬ isLineTerm c) then
      some mid
    else none
  else none

/-- Loop body of `getActionParams`: an attribute whose name matches the
parameter pattern contributes `params[camelCase(match[1])] = parseParam(value)`
(JS property assignment overwrites an existing key in place). -/
def gapStep (identifier : Str) (params : List (Str × JsonVal)) (nv : Str × Str) :
    List (Str × JsonVal) :=
  match matchParam identifier nv.1 with
  | none => params
  | some mid => mapSet params (camelCase mid) (parseParam nv.2)

/-- `getActionParams` of `src/portal-controller.ts`: fold over the element's
attributes in document order. -/
def getActionParams (attrs : List (Str × Str)) (identifier : Str) :
    List (Str × JsonVal) :=
  attrs.foldl (gapStep identifier) []

example : getActionParams [(strOf "data-widget-id-param", strOf "42")] (strOf "widget") =
    [(strOf "id", JsonVal.num 42)] := by decide

example : getActionParams [(strOf "data-widget-user-name-param", strOf "bob")] (strOf "widget") =
    [(strOf "userName", JsonVal.str (strOf "bob"))] := by decide

/-! ### Async owner lookup (`getControllerAsync`, `src/utils.ts`)

Two variants exist in the sources: one that resolves to `null` on timeout
and one that rejects on timeout; both share the retry structure.  The event
loop is embedded as a step function: `attempts` is the counter value after
the `attempts++` at the top of `checkController`, `elapsed` is
`Date.now() - startTime` at the current invocation, and the environment
`env : Nat → Option Nat` gives the result of
`app.getControllerForElementAndIdentifier` at each attempt (controllers are
represented by numeric ids).  A zero-delay `setTimeout` leaves `elapsed`
unchanged; a `setTimeout(_, poll)` advances it by `poll`. -/

inductive PollVariant where
  | resolveNull
  | rejectOnTimeout
deriving DecidableEq

inductive PollOutcome where
  | resolvedCtrl (c : Nat)
  | resolvedNull
  | rejected
deriving DecidableEq, Repr

inductive PollStep where
  | done (o : PollOutcome)
  | again (elapsed : Nat)
deriving DecidableEq, Repr

/-- One invocation of `checkController` (both variants; the `maxAttempts`
constant is 10 in the source). -/
def checkCtrlStep (variant : PollVariant) (env : Nat → Option Nat)
    (timeout poll attempts elapsed : Nat) : PollStep :=
  match env attempts with
  | some c => .done (.resolvedCtrl c)
  | none =>
    if timeout ≤ elapsed then
      .done (match variant with
             | .resolveNull => .resolvedNull
             | .rejectOnTimeout => .rejected)
    else if attempts ≤ 10 then .again elapsed
    else .again (elapsed + poll)

/-- Run the retry loop for at most `fuel` further invocations; `k` is the
number of invocations already performed and `elapsed` the clock at the next
invocation.  `none` means the loop was still running when the fuel ran
out. -/
def runPoll (variant : PollVariant) (env : Nat → Option Nat)
    (timeout poll : Nat) : Nat → Nat → Nat → Option PollOutcome
  | 0, _, _ => none
  | fuel + 1, k, elapsed =>
    match checkCtrlStep variant env timeout poll (k + 1) elapsed with
    | .done o => some o
    | .again elapsed' => runPoll variant env timeout poll fuel (k + 1) elapsed'

/-- Entry point: `getControllerAsync` calls `checkController()` immediately
with a fresh attempt counter and clock. -/
def getControllerAsyncModel (variant : PollVariant) (env : Nat → Option Nat)
    (timeout poll fuel : Nat) : Option PollOutcome :=
  runPoll variant env timeout poll fuel 0 0

/-! ### DOM model

Elements are numeric ids.  Each element record carries whether the element
is currently inside the relay's subtree (visible to `querySelectorAll`) and
its attribute list in document-insertion order; element objects persist
after removal from the tree (their attributes remain readable, as in the
browser), which the `inTree` flag captures.  The relay's own root element is
not part of `Dom` (`querySelectorAll` only returns descendants). -/

structure ElemRec where
  inTree : Bool
  attrs : List (Str × Str)
deriving DecidableEq, Repr

abbrev Dom := List (Nat × ElemRec)

/-- `element.getAttribute(name)`. -/
def getAttr (d : Dom) (el : Nat) (name : Str) : Option Str :=
  match mapGet d el with
  | none => none
  | some r => mapGet r.attrs name

/-- `element.hasAttribute(name)`. -/
def hasAttr (d : Dom) (el : Nat) (name : Str) : Bool :=
  (getAttr d el name).isSome

/-- `this.element.querySelectorAll` over a comma-joined list of attribute
selectors `[name]`: the subtree elements, in document order, having at least
one of the attributes. -/
def queryAny (d : Dom) (names : List Str) : List Nat :=
  (d.filter (fun p => p.2.inTree && names.any (fun n => (mapGet p.2.attrs n).isSome))).map Prod.fst

/-- Write or remove one attribute on an element record. -/
def domWriteAttr (d : Dom) (el : Nat) (name : Str) (v : Option Str) : Dom :=
  match mapGet d el with
  | none => d
  | some r =>
    let attrs' := match v with
      | none => mapDel r.attrs name
      | some s => mapSet r.attrs name s
    mapSet d el ⟨r.inTree, attrs'⟩

/-- `setAttributeValue` of `src/portal-controller.ts` (lines 811-820): a
`null` or all-whitespace value removes the attribute when present; otherwise
the trimmed value is written when absent or different. -/
def setAttributeValue (d : Dom) (el : Nat) (name : Str) (v : Option Str) : Dom :=
  let value : Str := match v with
    | none => []
    | some s => strTrim s
  if value = [] ∧ hasAttr d el name then domWriteAttr d el name none
  else if value ≠ [] ∧ hasAttr d el name = false then domWriteAttr d el name (some value)
  else if value ≠ [] ∧ getAttr d el name ≠ some value then domWriteAttr d el name (some value)
  else d

/-! ### Controllers and relay state -/

/-- Property descriptor content.  As the relay only stores and re-installs
descriptors whole, their content is opaque apart from the patched getters
the relay itself installs; the `configurable`/`enumerable` flag plumbing of
`Object.defineProperty` is elided. -/
inductive Desc where
  | plain (tag : Nat)
  | portalPatched (name : Str)
deriving DecidableEq, Repr

/-- A component (Stimulus controller) instance: object identity `oid`, its
identifier, the static `targets` list on its class, and the property
descriptors visible through its prototype chain (first occurrence along the
chain wins, so a single lookup table suffices). -/
structure Ctrl where
  oid : Nat
  identifier : Str
  targets : List Str
  descs : List (Str × Desc)
deriving DecidableEq, Repr

/-- One recorded invocation of `controller.context.invokeControllerMethod`:
the instance, the method name, the element (or event target) argument, and
whether the invoked hook threw (the throw is caught where it happens and
reported via `console.error`). -/
structure HookEvent where
  ctrl : Ctrl
  method : Str
  arg : Nat
  threw : Bool
deriving DecidableEq, Repr

/-- Oracle deciding whether a given hook invocation throws. -/
abbrev Oracle := Ctrl → Str → Nat → Bool

/-- The relay's mutable state: the DOM it watches plus every index field of
the `PortalController` class (same names as the source).  `proxyActions`
models which synthesized forwarding methods (`__proxyAction__<m>`) currently
exist on the relay object; `instProps` models the own-property tables of the
controller instances (mutated via `Object.defineProperty`); `hookLog`
records hook invocations.  The `MutationObserver` object is not modelled:
mutation delivery is the explicit `handleMutations` entry point. -/
structure PState where
  dom : Dom
  isConnected : Bool
  identifiers : List Str
  searchedIdentifiersForTargets : List Str
  searchedIdentifiersForActions : List Str
  controllers : List (Str × List Ctrl)
  targetsByController : List (Ctrl × List Nat)
  targetsByIdentifier : List (Str × List Nat)
  targetsByTargetName : List (Str × List (Str × List Nat))
  controllerOriginalMethods : List (Ctrl × List (Str × Desc))
  actionToElementsMap : List (Str × List Nat)
  elementToActionsMap : List (Nat × List Str)
  identifierToActionElementsMap : List (Str × List Nat)
  actionElementToIdentifiersMap : List (Nat × List Str)
  proxyActions : List Str
  instProps : List (Ctrl × List (Str × Desc))
  hookLog : List HookEvent
deriving DecidableEq, Repr

/-- Initial state of a freshly constructed relay over DOM `d`. -/
def initPState (d : Dom) : PState :=
  ⟨d, false, [], [], [], [], [], [], [], [], [], [], [], [], [], [], []⟩

/-- Record one `invokeControllerMethod` call (its throw, if any, is caught
at the call site). -/
def logHook (θ : Oracle) (st : PState) (c : Ctrl) (method : Str) (arg : Nat) : PState :=
  { st with hookLog := st.hookLog ++ [⟨c, method, arg, θ c method arg⟩] }

/-- `getTargetAttributeName`. -/
def getTargetAttributeName (identifier : Str) : Str :=
  strOf "data-" ++ identifier ++ strOf "-target"

/-- `getActionAttributeName`: the Stimulus schema's default action
attribute. -/
def actionAttributeName : Str := strOf "data-action"

/-- `getPortalledActionAttributeName`. -/
def portalledActionAttributeName : Str := actionAttributeName ++ strOf "-portalled"

/-- The relay controller's own Stimulus identifier (registered as
`portal` by `src/portal.ts`). -/
def portalIdentifier : Str := strOf "portal"

/-- `getTargetConnectedMethodName`. -/
def getTargetConnectedMethodName (targetName : Str) : Str :=
  camelCase targetName ++ strOf "TargetConnected"

/-- `getTargetDisconnectedMethodName`. -/
def getTargetDisconnectedMethodName (targetName : Str) : Str :=
  camelCase targetName ++ strOf "TargetDisconnected"

/-- `getProxyActionName`. -/
def getProxyActionName (m : Str) : Str := proxyActionMark ++ m

/-- `toProxyAction`: rewrite a directive to point at the relay's own
identifier and the synthesized method name (no cached string). -/
def toProxyAction (a : PAction) : PAction :=
  ⟨a.event, portalIdentifier, getProxyActionName a.method, a.modifier, none⟩

/-- `isObservedTargetElement`. -/
def isObservedTargetElement (st : PState) (el : Nat) : Bool :=
  st.identifiers.any (fun i => hasAttr st.dom el (getTargetAttributeName i))

/-! ### Target index operations (`src/portal-controller.ts` lines 213-350,
522-570) -/

/-- `storeTargetByTargetName`. -/
def storeTargetByTargetName (st : PState) (target : Nat) (identifier targetName : Str) : PState :=
  let m1 := (mapGet st.targetsByTargetName identifier).getD []
  let s2 := (mapGet m1 targetName).getD []
  { st with targetsByTargetName :=
      (mapSet st.targetsByTargetName identifier (mapSet m1 targetName (setAdd s2 target))) }

/-- `removeStoredTargetByTargetName`. -/
def removeStoredTargetByTargetName (st : PState) (target : Nat) (identifier targetName : Str) : PState :=
  match mapGet st.targetsByTargetName identifier with
  | none => st
  | some m1 =>
    match mapGet m1 targetName with
    | none => st
    | some s2 =>
      { st with targetsByTargetName :=
          (mapSet st.targetsByTargetName identifier (mapSet m1 targetName (setDel s2 target))) }

/-- `hasStoredTargetsByTargetName`. -/
def hasStoredTargetsByTargetName (st : PState) (identifier targetName : Str) : Bool :=
  match mapGet st.targetsByTargetName identifier with
  | none => false
  | some m1 =>
    match mapGet m1 targetName with
    | none => false
    | some s2 => 0 < s2.length

/-- `getStoredTargetsByTargetName`. -/
def getStoredTargetsByTargetName (st : PState) (identifier targetName : Str) : List Nat :=
  match mapGet st.targetsByTargetName identifier with
  | none => []
  | some m1 => (mapGet m1 targetName).getD []

/-- Per-controller body of the `addTarget` fan-out loop (lines 238-254):
ensure the instance's notified set exists, skip it when the element is
already marked, otherwise invoke the connected hook (`try`) and mark the
element (`finally` — the mark is set whether or not the hook threw). -/
def addTargetCtrlStep (θ : Oracle) (targetName : Str) (target : Nat)
    (s : PState) (c : Ctrl) : PState :=
  let tbcOpt := mapGet s.targetsByController c
  let tbc := tbcOpt.getD []
  let s := match tbcOpt with
    | none => { s with targetsByController := mapSet s.targetsByController c [] }
    | some _ => s
  if target ∈ tbc then s
  else
    let s := logHook θ s c (getTargetConnectedMethodName targetName) target
    { s with targetsByController := mapSet s.targetsByController c (tbc ++ [target]) }

/-- The inner `addTarget(target, identifier)` closure (lines 221-255): a
no-op when the element does not carry the identifier's target attribute;
otherwise record the element under the identifier and under
identifier+targetName, then notify every live instance of the identifier
through `addTargetCtrlStep`. -/
def addTargetOne (θ : Oracle) (st : PState) (target : Nat) (identifier : Str) : PState :=
  match getAttr st.dom target (getTargetAttributeName identifier) with
  | none => st
  | some targetName =>
    let tbi := (mapGet st.targetsByIdentifier identifier).getD []
    let st := { st with targetsByIdentifier :=
        (mapSet st.targetsByIdentifier identifier (setAdd tbi target)) }
    let st := storeTargetByTargetName st target identifier targetName
    match mapGet st.controllers identifier with
    | none => st
    | some ctrls => ctrls.foldl (addTargetCtrlStep θ targetName target) st

/-- The no-identifier overload of `addTarget` (lines 258-261): apply the
inner closure for every owned identifier. -/
def addTargetAll (θ : Oracle) (st : PState) (target : Nat) : PState :=
  st.identifiers.foldl (fun s i => addTargetOne θ s target i) st

/-- Per-controller body of the `removeTarget` fan-out loop (lines 290-306):
fire the disconnected hook only for an instance previously marked notified
(`try`), clearing the mark in a `finally`. -/
def removeTargetCtrlStep (θ : Oracle) (targetName : Str) (target : Nat)
    (s : PState) (c : Ctrl) : PState :=
  let tbcOpt := mapGet s.targetsByController c
  let tbc := tbcOpt.getD []
  let s := match tbcOpt with
    | none => { s with targetsByController := mapSet s.targetsByController c [] }
    | some _ => s
  if target ∈ tbc then
    let s := logHook θ s c (getTargetDisconnectedMethodName targetName) target
    { s with targetsByController := mapSet s.targetsByController c (setDel tbc target) }
  else s

/-- The `targetsByIdentifier` part of `removeTarget` (lines 280-283): drop
the element from the identifier's set when the set exists. -/
def removeTargetFromIdentifierIndex (st : PState) (target : Nat) (identifier : Str) : PState :=
  match mapGet st.targetsByIdentifier identifier with
  | none => st
  | some tbi => { st with targetsByIdentifier :=
      (mapSet st.targetsByIdentifier identifier (setDel tbi target)) }

/-- The inner `removeTarget(target, identifier)` closure (lines 275-307):
a no-op when the element does not carry the identifier's target attribute;
otherwise remove the element from both target indices and fire the
disconnected hook on every instance previously marked notified via
`removeTargetCtrlStep`. -/
def removeTargetOne (θ : Oracle) (st : PState) (target : Nat) (identifier : Str) : PState :=
  match getAttr st.dom target (getTargetAttributeName identifier) with
  | none => st
  | some targetName =>
    let st := removeTargetFromIdentifierIndex st target identifier
    let st := removeStoredTargetByTargetName st target identifier targetName
    match mapGet st.controllers identifier with
    | none => st
    | some ctrls => ctrls.foldl (removeTargetCtrlStep θ targetName target) st

/-- The no-identifier overload of `removeTarget` (lines 310-313). -/
def removeTargetAll (θ : Oracle) (st : PState) (target : Nat) : PState :=
  st.identifiers.foldl (fun s i => removeTargetOne θ s target i) st

/-- `disconnectAllTargets` (lines 319-350): for every owned identifier,
clear its `targetsByIdentifier` entry, then for every live instance fire the
disconnected hook for each element it was notified about that still carries
the target attribute, and clear the per-instance set. -/
def disconnectAllTargets (θ : Oracle) (st : PState) : PState :=
  st.identifiers.foldl (fun s identifier =>
    let s := match mapGet s.targetsByIdentifier identifier with
      | none => s
      | some _ => { s with targetsByIdentifier := mapSet s.targetsByIdentifier identifier [] }
    match mapGet s.controllers identifier with
    | none => s
    | some ctrls =>
      ctrls.foldl (fun s2 c =>
        match mapGet s2.targetsByController c with
        | none => s2
        | some targets =>
          let s3 := targets.foldl (fun s4 target =>
            match getAttr s4.dom target (getTargetAttributeName identifier) with
            | none => s4
            | some targetName =>
              let s4 := removeStoredTargetByTargetName s4 target identifier targetName
              logHook θ s4 c (getTargetDisconnectedMethodName targetName) target) s2
          { s3 with targetsByController := mapSet s3.targetsByController c [] }) s) st

/-- The batching loop of `searchTargets` (lines 359-371): push the current
identifier's attribute selector onto the batch; when the batch reaches width
5 or the identifier list is exhausted, run one query for the whole batch and
pass every matched element to `addTarget` with `identifiers[i]` — the
identifier of the current (last) loop position; finally mark the identifier
as searched. -/
def searchTargetsLoop (θ : Oracle) : PState → List Str → List Str → PState
  | st, _, [] => st
  | st, batch, identifier :: rest =>
    let batch' := batch ++ [getTargetAttributeName identifier]
    if batch'.length = 5 ∨ rest = [] then
      let targets := queryAny st.dom batch'
      let st := targets.foldl (fun s t => addTargetOne θ s t identifier) st
      let st := { st with searchedIdentifiersForTargets :=
          (setAdd st.searchedIdentifiersForTargets identifier) }
      searchTargetsLoop θ st [] rest
    else
      let st := { st with searchedIdentifiersForTargets :=
          (setAdd st.searchedIdentifiersForTargets identifier) }
      searchTargetsLoop θ st batch' rest

/-- `searchTargets` (lines 352-372): a no-op while disconnected; otherwise
sweep the subtree for each identifier not yet searched, batching attribute
selectors up to width 5. -/
def searchTargets (θ : Oracle) (st : PState) : PState :=
  if st.isConnected = false then st
  else
    let fresh := st.identifiers.filter
      (fun i => decide (i ∉ st.searchedIdentifiersForTargets))
    searchTargetsLoop θ st [] fresh

/-- Modelled from the spec: the unbatched reference sweep that the batched
`searchTargets` is claimed to be equivalent to — one
`querySelectorAll('[attr]')` per fresh owned identifier, adding each matched
element under that identifier. -/
def sweepPerIdentifier (θ : Oracle) (st : PState) : PState :=
  if st.isConnected = false then st
  else
    let fresh := st.identifiers.filter
      (fun i => decide (i ∉ st.searchedIdentifiersForTargets))
    fresh.foldl (fun s identifier =>
      let targets := queryAny s.dom [getTargetAttributeName identifier]
      let s := targets.foldl (fun s2 t => addTargetOne θ s2 t identifier) s
      { s with searchedIdentifiersForTargets :=
          (setAdd s.searchedIdentifiersForTargets identifier) }) st

/-! ### Action index and proxy router (`src/portal-controller.ts` lines
572-809) -/

/-- `parseActions` tokenisation (lines 755-764): trim each whitespace-split
token, skip empties, parse the rest; a malformed token makes
`parseActionToken` throw, which aborts the whole parse (`none`). -/
def parseTokens : List Str → Option (List PAction)
  | [] => some []
  | t :: rest =>
    let t' := strTrim t
    if t' = [] then parseTokens rest
    else
      match parseActionToken t' with
      | none => none
      | some a =>
        match parseTokens rest with
        | none => none
        | some as => some (a :: as)

/-- `parseActions` (lines 741-765): concatenate the element's action
attribute and portalled-action attribute values (space-joined, trimmed), and
parse the whitespace-separated tokens. -/
def parseActionsOf (d : Dom) (el : Nat) : Option (List PAction) :=
  let s0 : Str := []
  let s1 := match getAttr d el actionAttributeName with
    | none => s0
    | some v => strTrim (s0 ++ strOf " " ++ v)
  let s2 := match getAttr d el portalledActionAttributeName with
    | none => s1
    | some v => strTrim (s1 ++ strOf " " ++ v)
  let s3 := strTrim s2
  if s3 = [] then some []
  else parseTokens (splitOn (strOf " ") s3)

/-- Early block of `addActionElement` (lines 584-593), entered when the
element has lost both action attributes: for each directive previously
recorded for the element, drop the element from the directive's element set
and collect the directive (re-parsed) for proxy deletion when the set
becomes empty.  The re-parse can throw (`Bool` result). -/
def collectStaleDirectives (element : Nat) :
    PState → List Str → List PAction → PState × List PAction × Bool
  | st, [], acc => (st, acc, false)
  | st, directive :: rest, acc =>
    match mapGet st.actionToElementsMap directive with
    | none => collectStaleDirectives element st rest acc
    | some s =>
      if s = [] then collectStaleDirectives element st rest acc
      else
        let s' := setDel s element
        let st := { st with actionToElementsMap :=
            (mapSet st.actionToElementsMap directive s') }
        if s' = [] then
          match parseActionToken directive with
          | none => (st, acc, true)
          | some a => collectStaleDirectives element st rest (acc ++ [a])
        else collectStaleDirectives element st rest acc

/-- Classification loop of `addActionElement` (lines 596-624): skip
directives naming the relay itself; for an owned identifier record the
(directive, element) pair, queue the action for proxying and keep its
original token on the portalled attribute; for an unowned identifier leave
the token on the visible attribute, un-record the pair and queue the proxy
method for deletion when the directive's element set becomes empty. -/
def classifyActions (element : Nat) :
    PState → List PAction → List PAction → List PAction → List Str → List Str →
    PState × List PAction × List PAction × List Str × List Str
  | st, [], proxy, del, toks, ptoks => (st, proxy, del, toks, ptoks)
  | st, a :: rest, proxy, del, toks, ptoks =>
    if a.identifier = portalIdentifier then
      classifyActions element st rest proxy del toks ptoks
    else
      let directive := a.toStr
      let atm := (mapGet st.actionToElementsMap directive).getD []
      let st := match mapGet st.actionToElementsMap directive with
        | none => { st with actionToElementsMap := (mapSet st.actionToElementsMap directive []) }
        | some _ => st
      let etm := (mapGet st.elementToActionsMap element).getD []
      let st := match mapGet st.elementToActionsMap element with
        | none => { st with elementToActionsMap := (mapSet st.elementToActionsMap element []) }
        | some _ => st
      if a.identifier ∈ st.identifiers then
        let st := { st with
          actionToElementsMap := (mapSet st.actionToElementsMap directive (setAdd atm element)),
          elementToActionsMap := (mapSet st.elementToActionsMap element (setAdd etm directive)) }
        classifyActions element st rest (proxy ++ [a]) del toks (ptoks ++ [directive])
      else
        let atm' := setDel atm element
        let st := { st with
          actionToElementsMap := (mapSet st.actionToElementsMap directive atm'),
          elementToActionsMap := (mapSet st.elementToActionsMap element (setDel etm directive)) }
        let del' := if atm' = [] then del ++ [a] else del
        classifyActions element st rest proxy del' (toks ++ [directive]) ptoks

/-- Proxy-method deletion loop (lines 625-630 and 714-719): delete the
synthesized forwarding method for each queued action when it exists. -/
def deleteProxyMethods (st : PState) (dels : List PAction) : PState :=
  dels.foldl (fun s a =>
    let n := getProxyActionName a.method
    if n ∈ s.proxyActions then { s with proxyActions := setDel s.proxyActions n }
    else s) st

/-- Proxy installation loop of `addActionElement` (lines 631-674): record
the element under the action's identifier (both directions), append the
rewritten proxy directive to the visible-attribute tokens, and create the
shared forwarding method unless one with that name already exists (the
existing function is reused). -/
def installProxies (element : Nat) :
    PState → List PAction → List Str → PState × List Str
  | st, [], toks => (st, toks)
  | st, a :: rest, toks =>
    let itae := (mapGet st.identifierToActionElementsMap a.identifier).getD []
    let st := { st with identifierToActionElementsMap :=
        (mapSet st.identifierToActionElementsMap a.identifier (setAdd itae element)) }
    let aeti := (mapGet st.actionElementToIdentifiersMap element).getD []
    let st := { st with actionElementToIdentifiersMap :=
        (mapSet st.actionElementToIdentifiersMap element (setAdd aeti a.identifier)) }
    let pa := toProxyAction a
    let toks := toks ++ [pa.toStr]
    let st := if pa.method ∈ st.proxyActions then st
      else { st with proxyActions := setAdd st.proxyActions pa.method }
    installProxies element st rest toks

/-- `addActionElement` (lines 572-677).  Returns the new state and whether
an exception escaped (a malformed directive token). -/
def addActionElement (_θ : Oracle) (st : PState) (element : Nat) : PState × Bool :=
  let noAttrs := hasAttr st.dom element actionAttributeName = false ∧
    hasAttr st.dom element portalledActionAttributeName = false
  if noAttrs ∧ ((mapGet st.elementToActionsMap element).getD []) = [] then (st, false)
  else
    let stale := if noAttrs then
        collectStaleDirectives element st ((mapGet st.elementToActionsMap element).getD []) []
      else (st, [], false)
    let st1 := stale.1
    let dels0 := stale.2.1
    if stale.2.2 then (st1, true)
    else
      match parseActionsOf st1.dom element with
      | none => (st1, true)
      | some actions =>
        let r := classifyActions element st1 actions [] dels0 [] []
        let st2 := r.1
        let proxy := r.2.1
        let dels := r.2.2.1
        let toks := r.2.2.2.1
        let ptoks := r.2.2.2.2
        let st3 := deleteProxyMethods st2 dels
        let r2 := installProxies element st3 proxy toks
        let st4 := r2.1
        let toks' := r2.2
        let d1 := setAttributeValue st4.dom element actionAttributeName
          (some (strJoin (strOf " ") toks'))
        let d2 := setAttributeValue d1 element portalledActionAttributeName
          (some (strJoin (strOf " ") ptoks))
        ({ st4 with dom := d2 }, false)

/-- Directive-removal loop of `removeActionElement` (lines 697-713). -/
def removeActionLoop (element : Nat) (force : Bool) :
    PState → List PAction → List PAction → List Str →
    PState × List PAction × List Str
  | st, [], del, toks => (st, del, toks)
  | st, a :: rest, del, toks =>
    if a.identifier = portalIdentifier then
      removeActionLoop element force st rest del toks
    else
      let directive := a.toStr
      let toks := if force then toks else toks ++ [directive]
      match mapGet st.actionToElementsMap directive with
      | none => removeActionLoop element force st rest del toks
      | some s =>
        let s' := setDel s element
        if s' = [] then
          let st := { st with actionToElementsMap := mapDel st.actionToElementsMap directive }
          removeActionLoop element force st rest (del ++ [a]) toks
        else
          let st := { st with actionToElementsMap :=
              (mapSet st.actionToElementsMap directive s') }
          removeActionLoop element force st rest del toks

/-- `removeActionElement` (lines 679-722).  Returns the new state and
whether an exception escaped. -/
def removeActionElement (st : PState) (element : Nat) (force : Bool) : PState × Bool :=
  match parseActionsOf st.dom element with
  | none => (st, true)
  | some actions =>
    let st := { st with elementToActionsMap := mapDel st.elementToActionsMap element }
    let st := match mapGet st.actionElementToIdentifiersMap element with
      | none => st
      | some ids =>
        let st := ids.foldl (fun s identifier =>
          match mapGet s.identifierToActionElementsMap identifier with
          | none => s
          | some els =>
            let els' := setDel els element
            if els' = [] then
              { s with identifierToActionElementsMap :=
                  (mapDel s.identifierToActionElementsMap identifier) }
            else
              { s with identifierToActionElementsMap :=
                  (mapSet s.identifierToActionElementsMap identifier els') }) st
        { st with actionElementToIdentifiersMap :=
            (mapDel st.actionElementToIdentifiersMap element) }
    let r := removeActionLoop element force st actions [] []
    let st := deleteProxyMethods r.1 r.2.1
    let d1 := setAttributeValue st.dom element actionAttributeName
      (some (strJoin (strOf " ") r.2.2))
    let d2 := setAttributeValue d1 element portalledActionAttributeName none
    ({ st with dom := d2 }, false)

/-- `removeAllProxyActionsByIdentifier` (lines 730-739). -/
def removeAllProxyActionsByIdentifier (st : PState) (identifier : Str) : PState × Bool :=
  match mapGet st.identifierToActionElementsMap identifier with
  | none => (st, false)
  | some elements =>
    let acc := elements.foldl (fun (acc : PState × Bool) el =>
      if acc.2 then acc else removeActionElement acc.1 el false) (st, false)
    if acc.2 then acc
    else ({ acc.1 with identifierToActionElementsMap :=
        (mapDel acc.1.identifierToActionElementsMap identifier) }, false)

/-- `removeAllProxyActions` (lines 724-728). -/
def removeAllProxyActions (st : PState) : PState × Bool :=
  st.identifiers.foldl (fun (acc : PState × Bool) identifier =>
    if acc.2 then acc else removeAllProxyActionsByIdentifier acc.1 identifier)
    (st, false)

/-- Body of the synthesized forwarding handler (lines 649-673), invoked by
native event dispatch with the event's current target element; `origMethod`
is the method name the handler was created for.  The handler re-parses the
element's current directives, and for every directive with a matching method
whose identifier is owned, invokes the method on each live instance of that
identifier, catching per-instance failures.  (`event.params` is populated
from `getActionParams`, which mutates only the event object and is verified
separately.) -/
def invokeProxyAction (θ : Oracle) (st : PState) (target : Nat) (origMethod : Str) :
    PState × Bool :=
  match parseActionsOf st.dom target with
  | none => (st, true)
  | some targetActions =>
    (targetActions.foldl (fun s ta =>
      if ta.identifier = portalIdentifier ∨ ta.method ≠ origMethod then s
      else
        match mapGet s.controllers ta.identifier with
        | none => s
        | some ctrls => ctrls.foldl (fun s2 c => logHook θ s2 c ta.method target) s) st,
     false)

/-! ### Accessor interception (`src/portal-controller.ts` lines 420-520) -/

/-- The three accessor names derived from one declared target name
(lines 431-435), each mapped back to the target name. -/
def targetAccessorNames (t : Str) : List (Str × Str) :=
  [(t ++ strOf "Target", t),
   (t ++ strOf "Targets", t),
   (strOf "has" ++ capitalize t ++ strOf "Target", t)]

/-- `targetDescriptorsMap` construction: `Map.set` per accessor name, so a
later target name overwrites an earlier one on a colliding accessor name. -/
def targetDescriptorsMap (targets : List Str) : List (Str × Str) :=
  targets.foldl (fun m t =>
    (targetAccessorNames t).foldl (fun m2 nt => mapSet m2 nt.1 nt.2) m) []

/-- The property descriptor currently visible on a controller instance for
`name`: an own (instance) property if one was defined, else the prototype
chain's descriptor.  This is what the `while`-walk over
`Object.getPrototypeOf` collects (first occurrence wins). -/
def currentDesc (st : PState) (c : Ctrl) (name : Str) : Option Desc :=
  match mapGet st.instProps c with
  | none => mapGet c.descs name
  | some props =>
    match mapGet props name with
    | some d => some d
    | none => mapGet c.descs name

/-- The descriptor-collection walk of `overrideControllerGetTargetMethods`
(lines 436-447): for each declared-target accessor name, the first
descriptor found on the instance-to-prototype chain, in map order. -/
def collectDescriptors (st : PState) (c : Ctrl) : List (Str × Desc) :=
  (targetDescriptorsMap c.targets).foldl (fun acc nt =>
    match currentDesc st c nt.1 with
    | none => acc
    | some d => acc ++ [(nt.1, d)]) []

/-- The `Object.defineProperty` loop of the override (lines 448-496):
define a portal-merged getter on the instance for every collected name. -/
def patchProps (props : List (Str × Desc)) (collected : List (Str × Desc)) :
    List (Str × Desc) :=
  collected.foldl (fun ps nd => mapSet ps nd.1 (Desc.portalPatched nd.1)) props

/-- The `Object.defineProperty` loop of the restore (lines 505-511): write
every saved descriptor back onto the instance. -/
def writeProps (props saved : List (Str × Desc)) : List (Str × Desc) :=
  saved.foldl (fun ps nd => mapSet ps nd.1 nd.2) props

/-- `overrideControllerGetTargetMethods` (lines 420-498): throws when the
instance already has stored original methods; returns without storing when
the class declares no targets; otherwise saves the visible descriptor for
every declared-target accessor name that has one, installs the
portal-merged getter in its place on the instance, and records the saved
originals. -/
def overrideControllerGetTargetMethods (st : PState) (c : Ctrl) : PState × Bool :=
  match mapGet st.controllerOriginalMethods c with
  | some _ => (st, true)
  | none =>
    if c.targets = [] then (st, false)
    else
      let collected := collectDescriptors st c
      let props' := patchProps ((mapGet st.instProps c).getD []) collected
      ({ st with
          instProps := (mapSet st.instProps c props'),
          controllerOriginalMethods := (mapSet st.controllerOriginalMethods c collected) },
       false)

/-- `restoreControllerGetTargetMethods` (lines 500-513): a no-op for an
instance that was never patched; otherwise re-define every saved descriptor
on the instance and forget the saved set. -/
def restoreControllerGetTargetMethods (st : PState) (c : Ctrl) : PState :=
  match mapGet st.controllerOriginalMethods c with
  | none => st
  | some saved =>
    let props' := writeProps ((mapGet st.instProps c).getD []) saved
    { st with
        instProps := (mapSet st.instProps c props'),
        controllerOriginalMethods := (mapDel st.controllerOriginalMethods c) }

/-- `restoreControllersGetTargetMethods` (lines 515-520). -/
def restoreControllersGetTargetMethods (st : PState) : PState :=
  (st.controllerOriginalMethods.map Prod.fst).foldl
    restoreControllerGetTargetMethods st

/-! ### Lifecycle and mutation delivery -/

/-- `searchActions` (lines 374-389): a no-op while disconnected or when no
identifier is fresh; otherwise one query for all action-attribute elements,
`addActionElement` on each (an escaping exception aborts the loop and skips
the searched-marking), then mark every fresh identifier searched. -/
def searchActions (θ : Oracle) (st : PState) : PState × Bool :=
  if st.isConnected = false then (st, false)
  else
    let fresh := st.identifiers.filter
      (fun i => decide (i ∉ st.searchedIdentifiersForActions))
    if fresh = [] then (st, false)
    else
      let elements := queryAny st.dom [actionAttributeName]
      let acc := elements.foldl (fun (acc : PState × Bool) el =>
        if acc.2 then acc else addActionElement θ acc.1 el) (st, false)
      if acc.2 then acc
      else
        (fresh.foldl (fun s i =>
          { s with searchedIdentifiersForActions :=
              (setAdd s.searchedIdentifiersForActions i) }) acc.1, false)

/-- A delivered mutation record: either a child-list change with added and
removed element ids, or an attribute change with the old value
(`attributeOldValue: true` in the observer configuration); the current
value is read from the live DOM. -/
inductive MutationRecord where
  | childList (added removed : List Nat)
  | attrChange (target : Nat) (attributeName : Str) (oldValue : Option Str)
deriving DecidableEq, Repr

/-- Processing of one mutation record (`handleMutations` body, lines
161-210).  For child-list records each added (removed) element is bound
(unbound) when it carries a watched target attribute, and processed as an
action element when it carries the action attribute.  For attribute records
the three transitions none→value / value→none / value→different are
distinguished per watched attribute. -/
def handleMutationRecord (θ : Oracle) (st : PState) (m : MutationRecord) :
    PState × Bool :=
  match m with
  | .childList added removed =>
    let acc := added.foldl (fun (acc : PState × Bool) node =>
      if acc.2 then acc
      else
        let s := acc.1
        let s := if isObservedTargetElement s node then addTargetAll θ s node else s
        if hasAttr s.dom node actionAttributeName then addActionElement θ s node
        else (s, false)) (st, false)
    if acc.2 then acc
    else
      removed.foldl (fun (acc2 : PState × Bool) node =>
        if acc2.2 then acc2
        else
          let s := acc2.1
          let s := if isObservedTargetElement s node then removeTargetAll θ s node else s
          if hasAttr s.dom node actionAttributeName then removeActionElement s node false
          else (s, false)) acc
  | .attrChange target attributeName oldValue =>
    let currentValue := getAttr st.dom target attributeName
    if attributeName = actionAttributeName then
      match oldValue, currentValue with
      | none, some _ => addActionElement θ st target
      | some o, some c => if o ≠ c then addActionElement θ st target else (st, false)
      | some _, none => removeActionElement st target true
      | none, none => (st, false)
    else
      match st.identifiers.find? (fun i => decide (attributeName = getTargetAttributeName i)) with
      | none => (st, false)
      | some identifier =>
        match oldValue, currentValue with
        | none, some _ => (addTargetOne θ st target identifier, false)
        | some _, none => (removeTargetOne θ st target identifier, false)
        | some o, some c =>
          if o ≠ c then
            let st := removeStoredTargetByTargetName st target identifier o
            (storeTargetByTargetName st target identifier c, false)
          else (st, false)
        | none, none => (st, false)

/-- `handleMutations`: process the batch in order; an escaping exception
aborts the remaining records. -/
def handleMutations (θ : Oracle) (st : PState) (ms : List MutationRecord) :
    PState × Bool :=
  ms.foldl (fun acc m => if acc.2 then acc else handleMutationRecord θ acc.1 m)
    (st, false)

/-- `sync` (lines 85-106): record the identifier and the instance, patch the
instance's accessors (throws on double registration), re-sweep when
connected, then synchronously catch the new instance up on the targets
already known for its identifier. -/
def sync (θ : Oracle) (st : PState) (c : Ctrl) : PState × Bool :=
  let st := { st with identifiers := setAdd st.identifiers c.identifier }
  let ctrls := (mapGet st.controllers c.identifier).getD []
  let st := { st with controllers := (mapSet st.controllers c.identifier (setAdd ctrls c)) }
  let ov := overrideControllerGetTargetMethods st c
  if ov.2 then (ov.1, true)
  else
    let sa := if ov.1.isConnected then searchActions θ (searchTargets θ ov.1)
      else (ov.1, false)
    if sa.2 then (sa.1, true)
    else
      match mapGet sa.1.targetsByIdentifier c.identifier with
      | none => (sa.1, false)
      | some targets =>
        (targets.foldl (fun s t => addTargetOne θ s t c.identifier) sa.1, false)

/-- `unsync` (lines 108-129): drop the instance, restore its accessors, and
when its identifier has no live instance left, forget the identifier's
indices and caches and remove every proxy its action elements required. -/
def unsync (st : PState) (c : Ctrl) : PState × Bool :=
  match mapGet st.controllers c.identifier with
  | none => (st, false)
  | some ctrls =>
    let ctrls' := setDel ctrls c
    let st := { st with controllers := (mapSet st.controllers c.identifier ctrls') }
    let st := restoreControllerGetTargetMethods st c
    let rp := if ctrls' = [] then
        let st := { st with
          controllers := (mapDel st.controllers c.identifier),
          identifiers := (setDel st.identifiers c.identifier),
          targetsByIdentifier := (mapDel st.targetsByIdentifier c.identifier),
          searchedIdentifiersForTargets := (setDel st.searchedIdentifiersForTargets c.identifier),
          searchedIdentifiersForActions := (setDel st.searchedIdentifiersForActions c.identifier),
          targetsByTargetName := (mapDel st.targetsByTargetName c.identifier) }
        if st.isConnected then removeAllProxyActionsByIdentifier st c.identifier
        else (st, false)
      else (st, false)
    if rp.2 then (rp.1, true)
    else ({ rp.1 with targetsByController := (mapDel rp.1.targetsByController c) }, false)

/-- `connect` (lines 57-63; observer management elided): mark connected and
run the initial sweeps. -/
def connectPortal (θ : Oracle) (st : PState) : PState × Bool :=
  let st := { st with isConnected := true }
  searchActions θ (searchTargets θ st)

/-- `disconnect` (lines 65-83): fire all outstanding disconnected hooks,
restore every patched instance, remove all proxies, then clear every index
and cache. -/
def disconnectPortal (θ : Oracle) (st : PState) : PState × Bool :=
  let st := { st with isConnected := false }
  let st := disconnectAllTargets θ st
  let st := restoreControllersGetTargetMethods st
  let rp := removeAllProxyActions st
  if rp.2 then (rp.1, true)
  else
    ({ rp.1 with
        identifiers := [],
        searchedIdentifiersForTargets := [],
        searchedIdentifiersForActions := [],
        controllers := [],
        targetsByController := [],
        targetsByIdentifier := [],
        targetsByTargetName := [],
        controllerOriginalMethods := [],
        actionToElementsMap := [],
        elementToActionsMap := [],
        identifierToActionElementsMap := [],
        actionElementToIdentifiersMap := [] }, false)

/-! ### Reachable relay states

Every external entry point of the relay, plus arbitrary external DOM
manipulation (the mutations themselves happen outside the relay; the relay
only sees the records). -/

inductive POp where
  | opSync (c : Ctrl)
  | opUnsync (c : Ctrl)
  | opConnect
  | opDisconnect
  | opMutations (ms : List MutationRecord)
  | opInvokeProxy (target : Nat) (origMethod : Str)
  | opSetDom (d : Dom)

/-- Apply one external operation (an exception escaping to the caller
leaves the state reached at the throw point). -/
def applyOp (θ : Oracle) (st : PState) : POp → PState
  | .opSync c => (sync θ st c).1
  | .opUnsync c => (unsync st c).1
  | .opConnect => (connectPortal θ st).1
  | .opDisconnect => (disconnectPortal θ st).1
  | .opMutations ms => (handleMutations θ st ms).1
  | .opInvokeProxy t m => (invokeProxyAction θ st t m).1
  | .opSetDom d => { st with dom := d }

/-- Run a sequence of external operations from the initial state. -/
def runOps (θ : Oracle) (d : Dom) (ops : List POp) : PState :=
  ops.foldl (applyOp θ) (initPState d)

/-! ### Association-list lemmas -/

theorem mapGet_set_self {α β : Type} [DecidableEq α] (m : List (α × β)) (k : α) (v : β) :
    mapGet (mapSet m k v) k = some v := by
  induction m with
  | nil => simp [mapSet, mapGet]
  | cons p rest ih =>
    obtain ⟨k0, v0⟩ := p
    simp only [mapSet]
    by_cases h0 : k0 = k
    · rw [if_pos h0]
      simp [mapGet]
    · rw [if_neg h0]
      simp only [mapGet]
      rw [if_neg h0]
      exact ih

theorem mapGet_set_other {α β : Type} [DecidableEq α] (m : List (α × β)) (k k' : α) (v : β)
    (h : k' ≠ k) : mapGet (mapSet m k v) k' = mapGet m k' := by
  induction m with
  | nil =>
    simp only [mapSet, mapGet]
    rw [if_neg (Ne.symm h)]
  | cons p rest ih =>
    obtain ⟨k0, v0⟩ := p
    simp only [mapSet]
    by_cases h0 : k0 = k
    · rw [if_pos h0]
      subst h0
      simp only [mapGet]
      rw [if_neg (Ne.symm h), if_neg (Ne.symm h)]
    · rw [if_neg h0]
      simp only [mapGet]
      by_cases h1 : k0 = k'
      · rw [if_pos h1, if_pos h1]
      · rw [if_neg h1, if_neg h1]
        exact ih

theorem mapGet_del_self {α β : Type} [DecidableEq α] (m : List (α × β)) (k : α) :
    mapGet (mapDel m k) k = none := by
  induction m with
  | nil => simp [mapDel, mapGet]
  | cons p rest ih =>
    obtain ⟨k0, v0⟩ := p
    by_cases h0 : k0 = k
    · simp only [mapDel, List.filter]
      rw [show (decide ¬((k0, v0).1 = k)) = false by simp [h0]]
      simpa [mapDel] using ih
    · simp only [mapDel, List.filter]
      rw [show (decide ¬((k0, v0).1 = k)) = true by simp [h0]]
      simp only [mapGet]
      rw [if_neg h0]
      simpa [mapDel] using ih

theorem mapGet_del_other {α β : Type} [DecidableEq α] (m : List (α × β)) (k k' : α)
    (h : k' ≠ k) : mapGet (mapDel m k) k' = mapGet m k' := by
  induction m with
  | nil => simp [mapDel, mapGet]
  | cons p rest ih =>
    obtain ⟨k0, v0⟩ := p
    by_cases h0 : k0 = k
    · simp only [mapDel, List.filter]
      rw [show (decide ¬((k0, v0).1 = k)) = false by simp [h0]]
      simp only [mapGet]
      rw [if_neg (by rw [h0]; exact Ne.symm h)]
      simpa [mapDel] using ih
    · simp only [mapDel, List.filter]
      rw [show (decide ¬((k0, v0).1 = k)) = true by simp [h0]]
      simp only [mapGet]
      by_cases h1 : k0 = k'
      · rw [if_pos h1, if_pos h1]
      · rw [if_neg h1, if_neg h1]
        simpa [mapDel] using ih

/-! ### Claim C10: round-trip of directive parsing -/

/-- Claim C10, counterexample.  The claim quantifies over every non-empty
whitespace-free token, but `parseActionToken` throws a `TypeError` on a
token whose identifier segment contains no `#` (such as `abc`):
`methodDetails` is `undefined` and `undefined.split` throws, so no `Action`
is produced at all and no stringification can equal the token. -/
theorem parseActionToken_roundtrip_cex :
    (strOf "abc" ≠ [] ∧ (strOf "abc").all (fun c => !c.isWhitespace) = true) ∧
    ¬ ∃ a : PAction, parseActionToken (strOf "abc") = some a := by
  refine ⟨by decide, ?_⟩
  rintro ⟨a, ha⟩
  rw [show parseActionToken (strOf "abc") = none from by decide] at ha
  cases ha

/-- Claim C10 (amended): for every token that `parseActionToken`
successfully parses, the parsed `Action` stringifies back to exactly the
original token — the constructor caches the whole token as the stringified
form, so re-serialising a parsed directive never alters the attribute text
of directives that pass through untouched. -/
theorem parseActionToken_roundtrip (t : Str) (a : PAction)
    (h : parseActionToken t = some a) : a.toStr = t := by
  unfold parseActionToken at h
  simp only at h
  split at h
  · exact absurd h (by simp)
  · exact absurd h (by simp)
  · split at h
    · exact absurd h (by simp)
    · cases h
      rfl
    · cases h
      rfl

/-- Claim C10, witness: the round-trip theorem applied at the concrete
token `click->a#save:prevent`. -/
theorem parseActionToken_roundtrip_witness :
    PAction.toStr ⟨some (strOf "click"), strOf "a", strOf "save",
      some (strOf "prevent"), some (strOf "click->a#save:prevent")⟩ =
      strOf "click->a#save:prevent" :=
  parseActionToken_roundtrip (strOf "click->a#save:prevent") _ (by decide)

/-! ### Claim C9: bounded-retry owner lookup -/

/-- Outcome translation between the two `getControllerAsync` variants: an
absent result becomes a rejection, everything else is unchanged. -/
def swapTimeoutOutcome : PollOutcome → PollOutcome
  | .resolvedNull => .rejected
  | o => o

theorem runPoll_resolveNull_ne_rejected (env : Nat → Option Nat) (t p : Nat) :
    ∀ fuel k e, runPoll .resolveNull env t p fuel k e ≠ some .rejected := by
  intro fuel
  induction fuel with
  | zero => intro k e; simp [runPoll]
  | succ f ih =>
    intro k e
    simp only [runPoll]
    cases h : checkCtrlStep .resolveNull env t p (k + 1) e with
    | done o =>
      unfold checkCtrlStep at h
      cases he : env (k + 1) with
      | some c => rw [he] at h; simp at h; simp [← h]
      | none =>
        rw [he] at h
        by_cases ht : t ≤ e
        · simp [ht] at h; simp [← h]
        · simp [ht] at h
          split at h <;> cases h
    | again e' => exact ih (k + 1) e'

theorem checkCtrlStep_none (v : PollVariant) (env : Nat → Option Nat)
    (t p a e : Nat) (henv : env a = none) :
    checkCtrlStep v env t p a e =
      if t ≤ e then
        .done (match v with
               | .resolveNull => .resolvedNull
               | .rejectOnTimeout => .rejected)
      else if a ≤ 10 then .again e else .again (e + p) := by
  unfold checkCtrlStep
  rw [henv]

theorem runPoll_notFound_resolvedNull (env : Nat → Option Nat)
    (henv : ∀ n, env n = none) (t p : Nat) :
    ∀ fuel k e o, runPoll .resolveNull env t p fuel k e = some o → o = .resolvedNull := by
  intro fuel
  induction fuel with
  | zero => intro k e o h; cases h
  | succ f ih =>
    intro k e o h
    simp only [runPoll] at h
    rw [checkCtrlStep_none _ _ _ _ _ _ (henv (k + 1))] at h
    by_cases ht : t ≤ e
    · rw [if_pos ht] at h
      exact (Option.some.inj h).symm
    · rw [if_neg ht] at h
      by_cases ha : k + 1 ≤ 10
      · rw [if_pos ha] at h
        exact ih _ _ _ h
      · rw [if_neg ha] at h
        exact ih _ _ _ h

theorem checkCtrlStep_delay (v : PollVariant) (env : Nat → Option Nat)
    (t p a e : Nat) (henv : env a = none) (ht : e < t) :
    checkCtrlStep v env t p a e = .again (if a ≤ 10 then e else e + p) := by
  unfold checkCtrlStep
  rw [henv, if_neg (by omega)]
  by_cases ha : a ≤ 10
  · rw [if_pos ha, if_pos ha]
  · rw [if_neg ha, if_neg ha]

theorem checkCtrlStep_variant (env : Nat → Option Nat) (t p a e : Nat) :
    checkCtrlStep .rejectOnTimeout env t p a e =
      match checkCtrlStep .resolveNull env t p a e with
      | .done o => .done (swapTimeoutOutcome o)
      | .again e' => .again e' := by
  unfold checkCtrlStep
  cases he : env a with
  | some c => simp [swapTimeoutOutcome]
  | none =>
    by_cases ht : t ≤ e
    · simp [ht, swapTimeoutOutcome]
    · simp only [ht, if_false]
      by_cases ha : a ≤ 10
      · simp [ha]
      · simp [ha]

theorem runPoll_variant_mapped (env : Nat → Option Nat) (t p : Nat) :
    ∀ fuel k e, runPoll .rejectOnTimeout env t p fuel k e =
      Option.map swapTimeoutOutcome (runPoll .resolveNull env t p fuel k e) := by
  intro fuel
  induction fuel with
  | zero => intro k e; simp [runPoll]
  | succ f ih =>
    intro k e
    simp only [runPoll]
    rw [checkCtrlStep_variant]
    cases hc : checkCtrlStep .resolveNull env t p (k + 1) e with
    | done o => simp
    | again e' => simp [ih]

/-- Claim C9: (1) the resolve variant of `getControllerAsync` never
rejects; (2) when no controller ever appears, any result it produces is the
absent result (`resolvedNull`), never an exception; (3) when an attempt
finds no controller before the timeout, the next retry is scheduled on the
next-tick boundary (zero added delay) for the first 10 attempts and after
the fixed poll interval for every later attempt; (4) the rejection variant
behaves identically except that the timeout outcome is a rejection instead
of an absent result. -/
theorem getControllerAsync_contract :
    (∀ (env : Nat → Option Nat) (t p fuel : Nat),
       getControllerAsyncModel .resolveNull env t p fuel ≠ some .rejected) ∧
    (∀ (env : Nat → Option Nat) (t p fuel : Nat) (o : PollOutcome),
       (∀ n, env n = none) →
       getControllerAsyncModel .resolveNull env t p fuel = some o →
       o = .resolvedNull) ∧
    (∀ (v : PollVariant) (env : Nat → Option Nat) (t p a e : Nat),
       env a = none → e < t →
       checkCtrlStep v env t p a e = .again (if a ≤ 10 then e else e + p)) ∧
    (∀ (env : Nat → Option Nat) (t p fuel : Nat),
       getControllerAsyncModel .rejectOnTimeout env t p fuel =
         Option.map swapTimeoutOutcome (getControllerAsyncModel .resolveNull env t p fuel)) := by
  refine ⟨?_, ?_, ?_, ?_⟩
  · intro env t p fuel
    exact runPoll_resolveNull_ne_rejected env t p fuel 0 0
  · intro env t p fuel o henv h
    exact runPoll_notFound_resolvedNull env henv t p fuel 0 0 o h
  · intro v env t p a e henv ht
    exact checkCtrlStep_delay v env t p a e henv ht
  · intro env t p fuel
    exact runPoll_variant_mapped env t p fuel 0 0

/-- Claim C9, witness: the contract applied at concrete schedules — attempt
3 retries with zero delay, attempt 12 retries after the 50ms poll
interval. -/
theorem getControllerAsync_contract_witness :
    checkCtrlStep .resolveNull (fun _ => none) 100 50 3 0 = .again 0 ∧
    checkCtrlStep .resolveNull (fun _ => none) 100 50 12 7 = .again 57 := by
  constructor
  · have h := getControllerAsync_contract.2.2.1 .resolveNull (fun _ => none) 100 50 3 0 rfl (by decide)
    simpa using h
  · have h := getControllerAsync_contract.2.2.1 .resolveNull (fun _ => none) 100 50 12 7 rfl (by decide)
    simpa using h

/-! ### Claim C8: action parameters -/

/-- The value written last (in document order) to params key `k` by the
`getActionParams` fold, characterised from the right. -/
def lastParamWrite (identifier k : Str) (attrs : List (Str × Str)) : Option Str :=
  attrs.foldr (fun nv acc =>
    match acc with
    | some w => some w
    | none =>
      match matchParam identifier nv.1 with
      | none => none
      | some mid => if camelCase mid = k then some nv.2 else none) none

theorem gap_fold_lookup (identifier k : Str) :
    ∀ (attrs : List (Str × Str)) (acc : List (Str × JsonVal)),
      mapGet (attrs.foldl (gapStep identifier) acc) k =
        (match lastParamWrite identifier k attrs with
         | some w => some (parseParam w)
         | none => mapGet acc k) := by
  intro attrs
  induction attrs with
  | nil => intro acc; simp [lastParamWrite]
  | cons nv rest ih =>
    intro acc
    rw [List.foldl_cons, ih]
    show _ = (match lastParamWrite identifier k (nv :: rest) with
              | some w => some (parseParam w)
              | none => mapGet acc k)
    rw [show lastParamWrite identifier k (nv :: rest) =
        (match lastParamWrite identifier k rest with
         | some w => some w
         | none =>
           match matchParam identifier nv.1 with
           | none => none
           | some mid => if camelCase mid = k then some nv.2 else none) from rfl]
    cases hl : lastParamWrite identifier k rest with
    | some w => rfl
    | none =>
      cases hm : matchParam identifier nv.1 with
      | none => simp [gapStep, hm]
      | some mid =>
        simp only [gapStep, hm]
        by_cases hk : camelCase mid = k
        · rw [if_pos hk, ← hk, mapGet_set_self]
        · rw [if_neg hk, mapGet_set_other _ _ _ _ (fun hh => hk hh.symm)]

theorem lastParamWrite_isSome (identifier k n v : Str) (mid : Str) :
    ∀ attrs : List (Str × Str), (n, v) ∈ attrs →
      matchParam identifier n = some mid → camelCase mid = k →
      lastParamWrite identifier k attrs ≠ none := by
  intro attrs
  induction attrs with
  | nil => intro h; cases h
  | cons nv rest ih =>
    intro hmem hm hk
    rw [show lastParamWrite identifier k (nv :: rest) =
        (match lastParamWrite identifier k rest with
         | some w => some w
         | none =>
           match matchParam identifier nv.1 with
           | none => none
           | some mid2 => if camelCase mid2 = k then some nv.2 else none) from rfl]
    cases hl : lastParamWrite identifier k rest with
    | some w => simp
    | none =>
      rcases List.mem_cons.mp hmem with heq | hr
      · rw [← heq]
        simp only [hm, hk, if_pos rfl]
        simp
      · exact absurd hl (ih hr hm hk)

theorem lastParamWrite_provenance (identifier k : Str) :
    ∀ (attrs : List (Str × Str)) (w : Str),
      lastParamWrite identifier k attrs = some w →
      ∃ nv ∈ attrs, nv.2 = w ∧ ∃ m2, matchParam identifier nv.1 = some m2 ∧ camelCase m2 = k := by
  intro attrs
  induction attrs with
  | nil => intro w h; cases h
  | cons nv rest ih =>
    intro w h
    rw [show lastParamWrite identifier k (nv :: rest) =
        (match lastParamWrite identifier k rest with
         | some w => some w
         | none =>
           match matchParam identifier nv.1 with
           | none => none
           | some mid2 => if camelCase mid2 = k then some nv.2 else none) from rfl] at h
    cases hl : lastParamWrite identifier k rest with
    | some w2 =>
      rw [hl] at h
      obtain ⟨q, hq, hqs⟩ := ih w2 hl
      refine ⟨q, List.mem_cons_of_mem _ hq, ?_⟩
      cases h
      exact hqs
    | none =>
      rw [hl] at h
      cases hm : matchParam identifier nv.1 with
      | none => rw [hm] at h; cases h
      | some mid2 =>
        rw [hm] at h
        dsimp only at h
        by_cases hk : camelCase mid2 = k
        · rw [if_pos hk] at h
          exact ⟨nv, List.mem_cons_self _ _, Option.some.inj h, mid2, hm, hk⟩
        · rw [if_neg hk] at h
          cases h

/-- Claim C8: `getActionParams` returns a map containing, for each
attribute of the element whose name matches `data-<identifier>-<name>-param`
(case-insensitively), the key `camelCase(name)` bound to the JSON-parsed
value when it parses as structured data and to the raw string otherwise
(`parseParam`); when several attributes write the same key, the last one in
document order wins.  In particular `data-widget-id-param="42"` yields the
numeric value `42` under key `id`, not the string `"42"`. -/
theorem getActionParams_correct :
    (∀ (attrs : List (Str × Str)) (identifier n v mid : Str),
       (n, v) ∈ attrs → matchParam identifier n = some mid →
       (mapGet (getActionParams attrs identifier) (camelCase mid)).isSome = true) ∧
    (∀ (attrs : List (Str × Str)) (identifier n v mid : Str),
       (n, v) ∈ attrs → matchParam identifier n = some mid →
       (∀ q ∈ attrs, ∀ m2, matchParam identifier q.1 = some m2 →
          camelCase m2 = camelCase mid → parseParam q.2 = parseParam v) →
       mapGet (getActionParams attrs identifier) (camelCase mid) = some (parseParam v)) ∧
    getActionParams [(strOf "data-widget-id-param", strOf "42")] (strOf "widget") =
      [(strOf "id", JsonVal.num 42)] := by
  refine ⟨?_, ?_, by decide⟩
  · intro attrs identifier n v mid hmem hm
    rw [getActionParams, gap_fold_lookup]
    cases hl : lastParamWrite identifier (camelCase mid) attrs with
    | none => exact absurd hl (lastParamWrite_isSome identifier _ n v mid attrs hmem hm rfl)
    | some w => simp
  · intro attrs identifier n v mid hmem hm hagree
    rw [getActionParams, gap_fold_lookup]
    cases hl : lastParamWrite identifier (camelCase mid) attrs with
    | none => exact absurd hl (lastParamWrite_isSome identifier _ n v mid attrs hmem hm rfl)
    | some w =>
      obtain ⟨q, hq, hqw, m2, hm2, hcc⟩ := lastParamWrite_provenance identifier _ attrs w hl
      dsimp only
      rw [show parseParam w = parseParam v from hqw ▸ hagree q hq m2 hm2 hcc]

/-- Claim C8, witness: the key-binding clause applied at the concrete
element carrying `data-widget-id-param="42"` with identifier `widget`. -/
theorem getActionParams_correct_witness :
    mapGet (getActionParams [(strOf "data-widget-id-param", strOf "42")] (strOf "widget"))
      (camelCase (strOf "id")) = some (parseParam (strOf "42")) := by
  have h := getActionParams_correct.2.1 [(strOf "data-widget-id-param", strOf "42")]
    (strOf "widget") (strOf "data-widget-id-param") (strOf "42") (strOf "id")
    (by decide) (by decide)
    (by
      intro q hq m2 hm2 hcc
      have hqe : q = (strOf "data-widget-id-param", strOf "42") := by simpa using hq
      rw [hqe])
  exact h

/-! ### Concrete fixtures for the code-level findings -/

/-- Oracle under which no hook throws. -/
def noThrowOracle : Oracle := fun _ _ _ => false

/-- A live `a` instance with no declared targets. -/
def ctrlA : Ctrl := ⟨10, strOf "a", [], []⟩

/-- A live `b` instance with no declared targets. -/
def ctrlB : Ctrl := ⟨11, strOf "b", [], []⟩

/-- Modelled from the spec: the state computable by re-sweeping the current
DOM subtree for the currently owned identifier set from scratch — clear the
per-identifier sweep cache and issue one attribute-selector query per owned
identifier. -/
def resweepFromScratch (θ : Oracle) (st : PState) : PState :=
  sweepPerIdentifier θ { st with searchedIdentifiersForTargets := [] }

/-! ### Claim C1: batched sweep vs per-identifier sweep -/

/-- Subtree for C1: one element carrying only identifier `a`'s target
attribute. -/
def c1Dom : Dom := [(1, ⟨true, [(strOf "data-a-target", strOf "x")]⟩)]

/-- Two instances sync while the relay is disconnected, then the relay
connects: `searchTargets` runs with both identifiers fresh and batches both
selectors into one query. -/
def c1Run : PState := runOps noThrowOracle c1Dom [.opSync ctrlA, .opSync ctrlB, .opConnect]

/-- Claim C1, code-level finding: after the sync/connect prefix the batched
sweep has recorded no binding for (element 1, `a`, `x`) even though the
element carries `data-a-target="x"` and `a` is owned, whereas re-sweeping
the same owned-identifier set from scratch with one query per identifier
records it.  The batching loop passes `identifiers[i]` — the last identifier
of the batch — to `addTarget` for every element the batched query matched,
so elements matched by an earlier selector of the batch are dropped. -/
theorem searchTargets_batch_drops_bindings :
    getStoredTargetsByTargetName c1Run (strOf "a") (strOf "x") = [] ∧
    hasAttr c1Run.dom 1 (strOf "data-a-target") = true ∧
    (strOf "a") ∈ c1Run.identifiers ∧
    getStoredTargetsByTargetName (resweepFromScratch noThrowOracle c1Run)
      (strOf "a") (strOf "x") = [1] := by decide

/-! ### Claim C2: proxy-handler reference counting -/

/-- Subtree for C2: two elements whose directives use different events but
the same identifier and method. -/
def c2Dom : Dom :=
  [(1, ⟨true, [(actionAttributeName, strOf "click->a#save")]⟩),
   (2, ⟨true, [(actionAttributeName, strOf "submit->a#save")]⟩)]

/-- Sync one `a` instance and connect: both directives are proxied and the
shared handler `__proxyAction__save` is created once. -/
def c2Run1 : PState := runOps noThrowOracle c2Dom [.opSync ctrlA, .opConnect]

/-- Element 1 is then removed from the subtree and the removal record is
delivered. -/
def c2Run2 : PState := (handleMutations noThrowOracle c2Run1 [.childList [] [1]]).1

/-- A live action directive currently resolving to method `m`: an
`actionToElementsMap` entry with a non-empty element set whose parsed
directive names `m`. -/
def liveDirectiveResolvesTo (st : PState) (m : Str) : Bool :=
  st.actionToElementsMap.any (fun p =>
    p.2 ≠ [] &&
    (match parseActionToken p.1 with
     | some a => a.method = m
     | none => false))

/-- Claim C2, code-level finding: the handler for `save` exists after both
directives are registered, but removing element 1 — whose directive string
`click->a#save` differs from element 2's `submit->a#save` only in the event
— deletes the shared `__proxyAction__save` handler although element 2's
directive still resolves to `save` (and still sits on element 2's portalled
attribute).  The reference count is kept per exact directive string, not per
method name as the invariant requires. -/
theorem proxy_handler_deleted_while_directive_live :
    getProxyActionName (strOf "save") ∈ c2Run1.proxyActions ∧
    liveDirectiveResolvesTo c2Run2 (strOf "save") = true ∧
    getAttr c2Run2.dom 2 portalledActionAttributeName = some (strOf "submit->a#save") ∧
    (strOf "a") ∈ c2Run2.identifiers ∧
    getProxyActionName (strOf "save") ∉ c2Run2.proxyActions := by decide

/-! ### Claim C3: value→none target-attribute transition -/

/-- Subtree for C3 before mutation: element 1 bound as target `x` of `a`. -/
def c3Dom0 : Dom := [(1, ⟨true, [(strOf "data-a-target", strOf "x")]⟩)]

/-- The same subtree after the target attribute is removed externally. -/
def c3Dom1 : Dom := [(1, ⟨true, []⟩)]

/-- Sync, connect (binding element 1 and notifying the instance), then the
attribute disappears from the live DOM. -/
def c3Run1 : PState :=
  runOps noThrowOracle c3Dom0 [.opSync ctrlA, .opConnect, .opSetDom c3Dom1]

/-- The observer delivers the value→none attribute record. -/
def c3Run2 : PState :=
  (handleMutations noThrowOracle c3Run1
    [.attrChange 1 (strOf "data-a-target") (some (strOf "x"))]).1

/-- Claim C3, code-level finding: on the value→none transition
`handleMutations` calls `removeTarget`, but `removeTarget` immediately
returns because the element no longer has the attribute (the very reason the
transition fired), so the state is completely unchanged: the stale binding
(1, `a`, `x`) stays in the Target Index, the instance stays marked
notified, and no `xTargetDisconnected` hook is invoked. -/
theorem target_attr_removal_does_not_unbind :
    c3Run2 = c3Run1 ∧
    getStoredTargetsByTargetName c3Run2 (strOf "a") (strOf "x") = [1] ∧
    hasAttr c3Run2.dom 1 (strOf "data-a-target") = false ∧
    (c3Run2.hookLog.filter (fun e =>
      decide (e.method = getTargetDisconnectedMethodName (strOf "x")))).length = 0 := by
  decide

/-! ### Preservation of the accessor stores

None of the index operations touch `controllerOriginalMethods` or
`instProps`; only `overrideControllerGetTargetMethods` and
`restoreControllerGetTargetMethods` do.  `OmIp` projects the two stores. -/

def OmIp (st : PState) :
    List (Ctrl × List (Str × Desc)) × List (Ctrl × List (Str × Desc)) :=
  (st.controllerOriginalMethods, st.instProps)

theorem foldlPres {σ α : Type} (P : σ → Prop) (f : σ → α → σ)
    (h : ∀ s a, P s → P (f s a)) : ∀ (l : List α) (s : σ), P s → P (List.foldl f s l) := by
  intro l
  induction l with
  | nil => intro s hs; exact hs
  | cons a rest ih => intro s hs; exact ih _ (h s a hs)

theorem logHook_omip (θ : Oracle) (st : PState) (c : Ctrl) (m : Str) (a : Nat) :
    OmIp (logHook θ st c m a) = OmIp st := rfl

theorem storeTargetByTargetName_omip (st : PState) (t : Nat) (i tn : Str) :
    OmIp (storeTargetByTargetName st t i tn) = OmIp st := rfl

theorem removeStoredTargetByTargetName_omip (st : PState) (t : Nat) (i tn : Str) :
    OmIp (removeStoredTargetByTargetName st t i tn) = OmIp st := by
  unfold removeStoredTargetByTargetName
  split
  · rfl
  · split
    · rfl
    · rfl

theorem addTargetOne_omip (θ : Oracle) (st : PState) (t : Nat) (i : Str) :
    OmIp (addTargetOne θ st t i) = OmIp st := by
  unfold addTargetOne
  split
  · rfl
  · dsimp only
    split
    · rfl
    · refine foldlPres (fun s => OmIp s = OmIp st) _ ?_ _ _ rfl
      intro s c hs
      unfold addTargetCtrlStep
      dsimp only
      split
      · split
        · exact hs
        · exact hs
      · split
        · exact hs
        · exact hs

theorem removeTargetFromIdentifierIndex_omip (st : PState) (t : Nat) (i : Str) :
    OmIp (removeTargetFromIdentifierIndex st t i) = OmIp st := by
  unfold removeTargetFromIdentifierIndex
  split
  · rfl
  · rfl

theorem removeTargetOne_omip (θ : Oracle) (st : PState) (t : Nat) (i : Str) :
    OmIp (removeTargetOne θ st t i) = OmIp st := by
  unfold removeTargetOne
  split
  · rfl
  · dsimp only
    split
    · exact (removeStoredTargetByTargetName_omip ..).trans
        (removeTargetFromIdentifierIndex_omip ..)
    · refine foldlPres (fun s => OmIp s = OmIp st) _ ?_ _ _ ?_
      · intro s c hs
        unfold removeTargetCtrlStep
        dsimp only
        split
        · split
          · exact hs
          · exact hs
        · split
          · exact hs
          · exact hs
      · exact (removeStoredTargetByTargetName_omip ..).trans
          (removeTargetFromIdentifierIndex_omip ..)

theorem addTargetAll_omip (θ : Oracle) (st : PState) (t : Nat) :
    OmIp (addTargetAll θ st t) = OmIp st := by
  unfold addTargetAll
  refine foldlPres (fun s => OmIp s = OmIp st) _ ?_ _ _ rfl
  intro s i hs
  exact (addTargetOne_omip ..).trans hs

theorem removeTargetAll_omip (θ : Oracle) (st : PState) (t : Nat) :
    OmIp (removeTargetAll θ st t) = OmIp st := by
  unfold removeTargetAll
  refine foldlPres (fun s => OmIp s = OmIp st) _ ?_ _ _ rfl
  intro s i hs
  exact (removeTargetOne_omip ..).trans hs

theorem disconnectAllTargets_omip (θ : Oracle) (st : PState) :
    OmIp (disconnectAllTargets θ st) = OmIp st := by
  unfold disconnectAllTargets
  refine foldlPres (fun s => OmIp s = OmIp st) _ ?_ _ _ rfl
  intro s i hs
  dsimp only
  split
  · split
    · exact hs
    · exact hs
  · refine foldlPres (fun s2 => OmIp s2 = OmIp st) _ ?_ _ _ ?_
    · intro s2 c hs2
      dsimp only
      split
      · exact hs2
      · refine Eq.trans ?_ hs2
        refine foldlPres (fun s4 => OmIp s4 = OmIp s2) _ ?_ _ _ rfl
        intro s4 target hs4
        dsimp only
        split
        · exact hs4
        · exact (logHook_omip ..).trans ((removeStoredTargetByTargetName_omip ..).trans hs4)
    · split
      · exact hs
      · exact hs

theorem searchTargetsLoop_omip (θ : Oracle) :
    ∀ (fresh : List Str) (st : PState) (batch : List Str),
      OmIp (searchTargetsLoop θ st batch fresh) = OmIp st := by
  intro fresh
  induction fresh with
  | nil => intro st batch; rfl
  | cons identifier rest ih =>
    intro st batch
    unfold searchTargetsLoop
    dsimp only
    split
    · rw [ih]
      refine foldlPres (fun s => OmIp s = OmIp st) _ ?_ _ _ rfl
      intro s t hs
      exact (addTargetOne_omip ..).trans hs
    · rw [ih]
      rfl

theorem searchTargets_omip (θ : Oracle) (st : PState) :
    OmIp (searchTargets θ st) = OmIp st := by
  unfold searchTargets
  split
  · rfl
  · exact searchTargetsLoop_omip ..

theorem collectStaleDirectives_omip (element : Nat) :
    ∀ (dirs : List Str) (st : PState) (acc : List PAction),
      OmIp (collectStaleDirectives element st dirs acc).1 = OmIp st := by
  intro dirs
  induction dirs with
  | nil => intro st acc; rfl
  | cons d rest ih =>
    intro st acc
    unfold collectStaleDirectives
    dsimp only
    split
    · exact ih ..
    · split
      · exact ih ..
      · split
        · split
          · rfl
          · exact ih ..
        · exact ih ..

theorem classifyActions_omip (element : Nat) :
    ∀ (acts : List PAction) (st : PState) (p d : List PAction) (tk ptk : List Str),
      OmIp (classifyActions element st acts p d tk ptk).1 = OmIp st := by
  intro acts
  induction acts with
  | nil => intro st p d tk ptk; rfl
  | cons a rest ih =>
    intro st p d tk ptk
    unfold classifyActions
    dsimp only
    split
    · exact ih ..
    · split
      all_goals split
      all_goals split
      all_goals exact ih ..

theorem deleteProxyMethods_omip (st : PState) (dels : List PAction) :
    OmIp (deleteProxyMethods st dels) = OmIp st := by
  unfold deleteProxyMethods
  refine foldlPres (fun s => OmIp s = OmIp st) _ ?_ _ _ rfl
  intro s a hs
  dsimp only
  split
  · exact hs
  · exact hs

theorem installProxies_omip (element : Nat) :
    ∀ (acts : List PAction) (st : PState) (toks : List Str),
      OmIp (installProxies element st acts toks).1 = OmIp st := by
  intro acts
  induction acts with
  | nil => intro st toks; rfl
  | cons a rest ih =>
    intro st toks
    unfold installProxies
    dsimp only
    split
    · exact ih ..
    · exact ih ..

theorem addActionElement_omip (θ : Oracle) (st : PState) (element : Nat) :
    OmIp (addActionElement θ st element).1 = OmIp st := by
  unfold addActionElement
  dsimp only
  split
  · rfl
  · split
    · -- both attributes absent: the stale-directive block runs first
      split
      · exact collectStaleDirectives_omip ..
      · split
        · exact collectStaleDirectives_omip ..
        · exact (installProxies_omip ..).trans
            ((deleteProxyMethods_omip ..).trans
              ((classifyActions_omip ..).trans (collectStaleDirectives_omip ..)))
    · -- an attribute present: no stale block
      split
      · simp_all
      · split
        · rfl
        · exact (installProxies_omip ..).trans
            ((deleteProxyMethods_omip ..).trans (classifyActions_omip ..))

theorem removeActionLoop_omip (element : Nat) (force : Bool) :
    ∀ (acts : List PAction) (st : PState) (del : List PAction) (toks : List Str),
      OmIp (removeActionLoop element force st acts del toks).1 = OmIp st := by
  intro acts
  induction acts with
  | nil => intro st del toks; rfl
  | cons a rest ih =>
    intro st del toks
    unfold removeActionLoop
    dsimp only
    split
    · exact ih ..
    · split
      · exact ih ..
      · split
        · exact ih ..
        · exact ih ..

theorem removeActionElement_omip (st : PState) (element : Nat) (force : Bool) :
    OmIp (removeActionElement st element force).1 = OmIp st := by
  unfold removeActionElement
  split
  · rfl
  · dsimp only
    split
    · exact (deleteProxyMethods_omip ..).trans (removeActionLoop_omip ..)
    · refine (deleteProxyMethods_omip ..).trans ((removeActionLoop_omip ..).trans ?_)
      refine foldlPres (fun s => OmIp s = OmIp st) _ ?_ _ _ rfl
      intro s i hs
      dsimp only
      split
      · exact hs
      · split
        · exact hs
        · exact hs

theorem removeAllProxyActionsByIdentifier_omip (st : PState) (identifier : Str) :
    OmIp (removeAllProxyActionsByIdentifier st identifier).1 = OmIp st := by
  unfold removeAllProxyActionsByIdentifier
  split
  · rfl
  · dsimp only
    split
    · refine foldlPres (fun acc : PState × Bool => OmIp acc.1 = OmIp st) _ ?_ _ _ rfl
      intro acc el hacc
      dsimp only
      split
      · exact hacc
      · exact (removeActionElement_omip ..).trans hacc
    · refine foldlPres (fun acc : PState × Bool => OmIp acc.1 = OmIp st) _ ?_ _ _ rfl
      intro acc el hacc
      dsimp only
      split
      · exact hacc
      · exact (removeActionElement_omip ..).trans hacc

theorem removeAllProxyActions_omip (st : PState) :
    OmIp (removeAllProxyActions st).1 = OmIp st := by
  unfold removeAllProxyActions
  refine foldlPres (fun acc : PState × Bool => OmIp acc.1 = OmIp st) _ ?_ _ _ rfl
  intro acc i hacc
  dsimp only
  split
  · exact hacc
  · exact (removeAllProxyActionsByIdentifier_omip ..).trans hacc

theorem searchActions_omip (θ : Oracle) (st : PState) :
    OmIp (searchActions θ st).1 = OmIp st := by
  unfold searchActions
  split
  · rfl
  · dsimp only
    split
    · rfl
    · have hfold : OmIp (List.foldl (fun (acc : PState × Bool) el =>
        if acc.2 = true then acc else addActionElement θ acc.1 el)
          (st, false) (queryAny st.dom [actionAttributeName])).1 = OmIp st := by
        refine foldlPres (fun acc : PState × Bool => OmIp acc.1 = OmIp st) _ ?_ _ _ rfl
        intro acc el hacc
        dsimp only
        split
        · exact hacc
        · exact (addActionElement_omip ..).trans hacc
      split
      · exact hfold
      · refine Eq.trans ?_ hfold
        refine foldlPres (fun s => OmIp s = OmIp _) _ ?_ _ _ rfl
        intro s i hs
        exact hs

theorem invokeProxyAction_omip (θ : Oracle) (st : PState) (t : Nat) (m : Str) :
    OmIp (invokeProxyAction θ st t m).1 = OmIp st := by
  unfold invokeProxyAction
  split
  · rfl
  · dsimp only
    refine foldlPres (fun s => OmIp s = OmIp st) _ ?_ _ _ rfl
    intro s ta hs
    dsimp only
    split
    · exact hs
    · split
      · exact hs
      · refine Eq.trans ?_ hs
        refine foldlPres (fun s2 => OmIp s2 = OmIp s) _ ?_ _ _ rfl
        intro s2 c hs2
        exact (logHook_omip ..).trans hs2

theorem handleMutationRecord_omip (θ : Oracle) (st : PState) (m : MutationRecord) :
    OmIp (handleMutationRecord θ st m).1 = OmIp st := by
  unfold handleMutationRecord
  split
  · dsimp only
    split
    · refine foldlPres (fun acc : PState × Bool => OmIp acc.1 = OmIp st) _ ?_ _ _ rfl
      intro acc node hacc
      dsimp only
      split
      · exact hacc
      · split <;> split <;>
          first
            | exact (addActionElement_omip ..).trans ((addTargetAll_omip ..).trans hacc)
            | exact (addTargetAll_omip ..).trans hacc
            | exact (addActionElement_omip ..).trans hacc
            | exact hacc
    · refine foldlPres (fun acc : PState × Bool => OmIp acc.1 = OmIp st) _ ?_ _ _ ?_
      · intro acc node hacc
        dsimp only
        split
        · exact hacc
        · split <;> split <;>
            first
              | exact (removeActionElement_omip ..).trans ((removeTargetAll_omip ..).trans hacc)
              | exact (removeTargetAll_omip ..).trans hacc
              | exact (removeActionElement_omip ..).trans hacc
              | exact hacc
      · refine foldlPres (fun acc : PState × Bool => OmIp acc.1 = OmIp st) _ ?_ _ _ rfl
        intro acc node hacc
        dsimp only
        split
        · exact hacc
        · split <;> split <;>
            first
              | exact (addActionElement_omip ..).trans ((addTargetAll_omip ..).trans hacc)
              | exact (addTargetAll_omip ..).trans hacc
              | exact (addActionElement_omip ..).trans hacc
              | exact hacc
  · dsimp only
    split
    · split <;>
        first
          | exact addActionElement_omip ..
          | exact removeActionElement_omip ..
          | rfl
          | (split <;>
               first
                 | exact addActionElement_omip ..
                 | rfl)
    · split
      · rfl
      · split <;>
          first
            | exact addTargetOne_omip ..
            | exact removeTargetOne_omip ..
            | rfl
            | (split <;>
                 first
                   | exact (storeTargetByTargetName_omip ..).trans
                       (removeStoredTargetByTargetName_omip ..)
                   | rfl)

theorem handleMutations_omip (θ : Oracle) (st : PState) (ms : List MutationRecord) :
    OmIp (handleMutations θ st ms).1 = OmIp st := by
  unfold handleMutations
  refine foldlPres (fun acc : PState × Bool => OmIp acc.1 = OmIp st) _ ?_ _ _ rfl
  intro acc m hacc
  dsimp only
  split
  · exact hacc
  · exact (handleMutationRecord_omip ..).trans hacc

theorem omip_coM {s1 s2 : PState} (h : OmIp s1 = OmIp s2) :
    s1.controllerOriginalMethods = s2.controllerOriginalMethods :=
  congrArg Prod.fst h

theorem override_throws (st : PState) (c : Ctrl)
    (h : (mapGet st.controllerOriginalMethods c).isSome = true) :
    overrideControllerGetTargetMethods st c = (st, true) := by
  unfold overrideControllerGetTargetMethods
  split
  · rfl
  · rename_i hm
    rw [hm] at h
    cases h

theorem override_result_some (st : PState) (c : Ctrl) (ht : c.targets ≠ []) :
    (mapGet (overrideControllerGetTargetMethods st c).1.controllerOriginalMethods c).isSome
      = true := by
  unfold overrideControllerGetTargetMethods
  split
  · rename_i saved hm
    dsimp only
    rw [hm]
    rfl
  · dsimp only
    split
    · rename_i he
      exact absurd he ht
    · dsimp only
      rw [mapGet_set_self]
      rfl

theorem sync_overridden (θ : Oracle) (st : PState) (c : Ctrl) (ht : c.targets ≠ []) :
    (mapGet (sync θ st c).1.controllerOriginalMethods c).isSome = true := by
  unfold sync
  dsimp only
  split
  · exact override_result_some _ _ ht
  · split
    · -- relay connected: sa = searchActions (searchTargets ov.1)
      split
      · rw [omip_coM (searchActions_omip ..), omip_coM (searchTargets_omip ..)]
        exact override_result_some _ _ ht
      · split
        · rw [omip_coM (searchActions_omip ..), omip_coM (searchTargets_omip ..)]
          exact override_result_some _ _ ht
        · dsimp only
          refine foldlPres
            (fun s : PState => (mapGet s.controllerOriginalMethods c).isSome = true) _ ?_ _ _ ?_
          · intro s t hs
            rw [omip_coM (addTargetOne_omip ..)]
            exact hs
          · dsimp only
            rw [omip_coM (searchActions_omip ..), omip_coM (searchTargets_omip ..)]
            exact override_result_some _ _ ht
    · -- relay disconnected: sa = (ov.1, false)
      split
      · simp_all
      · split
        · exact override_result_some _ _ ht
        · dsimp only
          refine foldlPres
            (fun s : PState => (mapGet s.controllerOriginalMethods c).isSome = true) _ ?_ _ _ ?_
          · intro s t hs
            rw [omip_coM (addTargetOne_omip ..)]
            exact hs
          · dsimp only
            exact override_result_some _ _ ht

theorem sync_throws_of_overridden (θ : Oracle) (st : PState) (c : Ctrl)
    (h : (mapGet st.controllerOriginalMethods c).isSome = true) :
    (sync θ st c).2 = true := by
  unfold sync
  dsimp only
  rw [override_throws
    { st with
        identifiers := setAdd st.identifiers c.identifier
        controllers := mapSet st.controllers c.identifier
          (setAdd ((mapGet st.controllers c.identifier).getD []) c) }
    c h]
  rfl

/-! ### Claim C7: double sync -/

/-- A controller with no declared targets. -/
def ctrlNoTargets : Ctrl := ⟨12, strOf "n", [], []⟩

/-- A controller declaring one target with its class accessor. -/
def ctrlWithTarget : Ctrl := ⟨13, strOf "w", [strOf "content"],
  [(strOf "contentTarget", .plain 0), (strOf "contentTargets", .plain 1),
   (strOf "hasContentTarget", .plain 2)]⟩

/-- Claim C7, counterexample: for a controller whose class declares no
targets, `overrideControllerGetTargetMethods` returns before storing the
original-method record, so calling `sync` twice without an intervening
`unsync` does not throw — the claim's "for every controller instance" fails
on target-less controllers. -/
theorem sync_twice_no_throw_cex :
    (sync noThrowOracle
      (sync noThrowOracle (initPState []) ctrlNoTargets).1 ctrlNoTargets).2 = false := by
  decide

/-- Claim C7 (amended): for every controller instance whose class declares
at least one target name, calling `sync` twice without an intervening
`unsync` throws (the second accessor-patch registration finds the stored
original methods and fails) rather than silently re-patching. -/
theorem sync_twice_throws (θ1 θ2 : Oracle) (st : PState) (c : Ctrl) (ht : c.targets ≠ []) :
    (sync θ2 (sync θ1 st c).1 c).2 = true :=
  sync_throws_of_overridden θ2 _ c (sync_overridden θ1 st c ht)

/-- Claim C7, witness: the amended theorem applied to a concrete controller
declaring the target `content`, synced twice from the initial state. -/
theorem sync_twice_throws_witness :
    (sync noThrowOracle
      (sync noThrowOracle (initPState []) ctrlWithTarget).1 ctrlWithTarget).2 = true :=
  sync_twice_throws noThrowOracle noThrowOracle (initPState []) ctrlWithTarget (by decide)

/-! ### Claims C4 and C6: hook delivery -/

theorem mapSet_mapSet {α β : Type} [DecidableEq α] (m : List (α × β)) (k : α) (v w : β) :
    mapSet (mapSet m k v) k w = mapSet m k w := by
  induction m with
  | nil => simp [mapSet]
  | cons p rest ih =>
    obtain ⟨k0, v0⟩ := p
    by_cases h0 : k0 = k
    · simp [mapSet, h0]
    · simp [mapSet, h0, ih]

def stripEv (e : HookEvent) : Ctrl × Str × Nat := (e.ctrl, e.method, e.arg)

/-- The fan-out of connected-hook invocations one `addTarget` call performs:
one event per live instance of the identifier not yet notified for the
element. -/
def addFanout (θ : Oracle) (st : PState) (target : Nat) (identifier : Str) :
    List HookEvent :=
  match getAttr st.dom target (getTargetAttributeName identifier) with
  | none => []
  | some targetName =>
    match mapGet st.controllers identifier with
    | none => []
    | some ctrls =>
      (ctrls.filter (fun c =>
        decide (target ∉ (mapGet st.targetsByController c).getD []))).map
        (fun c => ⟨c, getTargetConnectedMethodName targetName, target,
          θ c (getTargetConnectedMethodName targetName) target⟩)

/-- The fan-out of disconnected-hook invocations one `removeTarget` call
performs: one event per live instance previously marked notified. -/
def removeFanout (θ : Oracle) (st : PState) (target : Nat) (identifier : Str) :
    List HookEvent :=
  match getAttr st.dom target (getTargetAttributeName identifier) with
  | none => []
  | some targetName =>
    match mapGet st.controllers identifier with
    | none => []
    | some ctrls =>
      (ctrls.filter (fun c =>
        decide (target ∈ (mapGet st.targetsByController c).getD []))).map
        (fun c => ⟨c, getTargetDisconnectedMethodName targetName, target,
          θ c (getTargetDisconnectedMethodName targetName) target⟩)

theorem addTargetCtrlStep_skip (θ : Oracle) (tn : Str) (t : Nat) (s : PState) (c : Ctrl)
    (h : t ∈ (mapGet s.targetsByController c).getD []) :
    addTargetCtrlStep θ tn t s c = s := by
  unfold addTargetCtrlStep
  cases hm : mapGet s.targetsByController c with
  | none => rw [hm] at h; cases h
  | some tbc =>
    rw [hm] at h
    simp only [hm, Option.getD]
    rw [if_pos (by simpa using h)]

theorem addTargetCtrlStep_notify (θ : Oracle) (tn : Str) (t : Nat) (s : PState) (c : Ctrl)
    (h : t ∉ (mapGet s.targetsByController c).getD []) :
    addTargetCtrlStep θ tn t s c =
      { s with
          hookLog := s.hookLog ++ [⟨c, getTargetConnectedMethodName tn, t,
            θ c (getTargetConnectedMethodName tn) t⟩],
          targetsByController := (mapSet s.targetsByController c
            (((mapGet s.targetsByController c).getD []) ++ [t])) } := by
  unfold addTargetCtrlStep
  cases hm : mapGet s.targetsByController c with
  | none =>
    rw [hm] at h
    simp only [hm, Option.getD]
    rw [if_neg (by simp)]
    simp only [logHook]
    rw [show (mapSet (mapSet s.targetsByController c []) c ([] ++ [t]))
          = mapSet s.targetsByController c [t] from by rw [mapSet_mapSet]; rfl]
    rfl
  | some tbc =>
    rw [hm] at h
    simp only [hm, Option.getD]
    rw [if_neg (by simpa using h)]
    rfl

theorem removeTargetCtrlStep_skip (θ : Oracle) (tn : Str) (t : Nat) (s : PState) (c : Ctrl)
    (h : t ∉ (mapGet s.targetsByController c).getD []) :
    removeTargetCtrlStep θ tn t s c =
      (match mapGet s.targetsByController c with
       | none => { s with targetsByController := mapSet s.targetsByController c [] }
       | some _ => s) := by
  unfold removeTargetCtrlStep
  cases hm : mapGet s.targetsByController c with
  | none =>
    simp only [hm, Option.getD]
    rw [if_neg (by simp)]
  | some tbc =>
    rw [hm] at h
    simp only [hm, Option.getD]
    rw [if_neg (by simpa using h)]

theorem removeTargetCtrlStep_clear (θ : Oracle) (tn : Str) (t : Nat) (s : PState) (c : Ctrl)
    (h : t ∈ (mapGet s.targetsByController c).getD []) :
    removeTargetCtrlStep θ tn t s c =
      { s with
          hookLog := s.hookLog ++ [⟨c, getTargetDisconnectedMethodName tn, t,
            θ c (getTargetDisconnectedMethodName tn) t⟩],
          targetsByController := (mapSet s.targetsByController c
            (setDel ((mapGet s.targetsByController c).getD []) t)) } := by
  unfold removeTargetCtrlStep
  cases hm : mapGet s.targetsByController c with
  | none => rw [hm] at h; cases h
  | some tbc =>
    rw [hm] at h
    simp only [hm, Option.getD]
    rw [if_pos (by simpa using h)]
    rfl

theorem addCtrlFold_char (θ : Oracle) (tn : Str) (t : Nat)
    (tbc0 : List (Ctrl × List Nat)) :
    ∀ (ctrls : List Ctrl) (s : PState),
      ctrls.Nodup →
      (∀ c ∈ ctrls, mapGet s.targetsByController c = mapGet tbc0 c) →
      (List.foldl (addTargetCtrlStep θ tn t) s ctrls).hookLog =
        s.hookLog ++ (ctrls.filter (fun c =>
          decide (t ∉ (mapGet tbc0 c).getD []))).map
          (fun c => ⟨c, getTargetConnectedMethodName tn, t,
            θ c (getTargetConnectedMethodName tn) t⟩) ∧
      (∀ c ∈ ctrls,
        t ∈ (mapGet (List.foldl (addTargetCtrlStep θ tn t) s ctrls).targetsByController c).getD []) ∧
      (∀ c', c' ∉ ctrls →
        mapGet (List.foldl (addTargetCtrlStep θ tn t) s ctrls).targetsByController c' =
          mapGet s.targetsByController c') ∧
      (List.foldl (addTargetCtrlStep θ tn t) s ctrls).dom = s.dom ∧
      (List.foldl (addTargetCtrlStep θ tn t) s ctrls).controllers = s.controllers := by
  intro ctrls
  induction ctrls with
  | nil =>
    intro s _ _
    exact ⟨by simp, by simp, fun c' _ => rfl, rfl, rfl⟩
  | cons c rest ih =>
    intro s hnd hcomp
    have hcr : c ∉ rest := (List.nodup_cons.mp hnd).1
    have hndr : rest.Nodup := (List.nodup_cons.mp hnd).2
    have hc0 : mapGet s.targetsByController c = mapGet tbc0 c :=
      hcomp c (List.mem_cons_self _ _)
    rw [List.foldl_cons]
    by_cases hmem : t ∈ (mapGet s.targetsByController c).getD []
    · rw [addTargetCtrlStep_skip θ tn t s c hmem]
      obtain ⟨hlog, hmem2, hframe, hdom, hctrl⟩ :=
        ih s hndr (fun c2 h2 => hcomp c2 (List.mem_cons_of_mem _ h2))
      refine ⟨?_, ?_, ?_, hdom, hctrl⟩
      · rw [hlog, List.filter_cons, if_neg (by rw [← hc0]; simpa using hmem)]
      · intro c2 h2
        rcases List.mem_cons.mp h2 with he | h2r
        · rw [he, hframe c hcr]
          exact hmem
        · exact hmem2 c2 h2r
      · intro c' hc'
        exact hframe c' (fun h => hc' (List.mem_cons_of_mem _ h))
    · rw [addTargetCtrlStep_notify θ tn t s c hmem]
      have hcomp' : ∀ c2 ∈ rest,
          mapGet ({ s with
              hookLog := s.hookLog ++ [⟨c, getTargetConnectedMethodName tn, t,
                θ c (getTargetConnectedMethodName tn) t⟩],
              targetsByController := (mapSet s.targetsByController c
                (((mapGet s.targetsByController c).getD []) ++ [t])) } : PState).targetsByController
            c2 = mapGet tbc0 c2 := by
        intro c2 h2
        have hne : c2 ≠ c := fun he => hcr (he ▸ h2)
        dsimp only
        rw [mapGet_set_other _ _ _ _ hne]
        exact hcomp c2 (List.mem_cons_of_mem _ h2)
      obtain ⟨hlog, hmem2, hframe, hdom, hctrl⟩ := ih _ hndr hcomp'
      refine ⟨?_, ?_, ?_, hdom, hctrl⟩
      · rw [hlog, List.filter_cons, if_pos (by rw [← hc0]; simpa using hmem)]
        simp [List.append_assoc]
      · intro c2 h2
        rcases List.mem_cons.mp h2 with he | h2r
        · rw [he, hframe c hcr, mapGet_set_self]
          simp
        · exact hmem2 c2 h2r
      · intro c' hc'
        have hne : c' ≠ c := fun he => hc' (he ▸ List.mem_cons_self _ _)
        rw [hframe c' (fun h => hc' (List.mem_cons_of_mem _ h))]
        exact mapGet_set_other _ _ _ _ hne

theorem removeCtrlFold_char (θ : Oracle) (tn : Str) (t : Nat)
    (tbc0 : List (Ctrl × List Nat)) :
    ∀ (ctrls : List Ctrl) (s : PState),
      ctrls.Nodup →
      (∀ c ∈ ctrls, mapGet s.targetsByController c = mapGet tbc0 c) →
      (List.foldl (removeTargetCtrlStep θ tn t) s ctrls).hookLog =
        s.hookLog ++ (ctrls.filter (fun c =>
          decide (t ∈ (mapGet tbc0 c).getD []))).map
          (fun c => ⟨c, getTargetDisconnectedMethodName tn, t,
            θ c (getTargetDisconnectedMethodName tn) t⟩) ∧
      (∀ c ∈ ctrls,
        t ∉ (mapGet (List.foldl (removeTargetCtrlStep θ tn t) s ctrls).targetsByController c).getD []) ∧
      (∀ c', c' ∉ ctrls →
        mapGet (List.foldl (removeTargetCtrlStep θ tn t) s ctrls).targetsByController c' =
          mapGet s.targetsByController c') ∧
      (List.foldl (removeTargetCtrlStep θ tn t) s ctrls).dom = s.dom ∧
      (List.foldl (removeTargetCtrlStep θ tn t) s ctrls).controllers = s.controllers := by
  intro ctrls
  induction ctrls with
  | nil =>
    intro s _ _
    exact ⟨by simp, by simp, fun c' _ => rfl, rfl, rfl⟩
  | cons c rest ih =>
    intro s hnd hcomp
    have hcr : c ∉ rest := (List.nodup_cons.mp hnd).1
    have hndr : rest.Nodup := (List.nodup_cons.mp hnd).2
    have hc0 : mapGet s.targetsByController c = mapGet tbc0 c :=
      hcomp c (List.mem_cons_self _ _)
    rw [List.foldl_cons]
    by_cases hmem : t ∈ (mapGet s.targetsByController c).getD []
    · rw [removeTargetCtrlStep_clear θ tn t s c hmem]
      have hcomp' : ∀ c2 ∈ rest,
          mapGet ({ s with
              hookLog := s.hookLog ++ [⟨c, getTargetDisconnectedMethodName tn, t,
                θ c (getTargetDisconnectedMethodName tn) t⟩],
              targetsByController := (mapSet s.targetsByController c
                (setDel ((mapGet s.targetsByController c).getD []) t)) } : PState).targetsByController
            c2 = mapGet tbc0 c2 := by
        intro c2 h2
        have hne : c2 ≠ c := fun he => hcr (he ▸ h2)
        dsimp only
        rw [mapGet_set_other _ _ _ _ hne]
        exact hcomp c2 (List.mem_cons_of_mem _ h2)
      obtain ⟨hlog, hmem2, hframe, hdom, hctrl⟩ := ih _ hndr hcomp'
      refine ⟨?_, ?_, ?_, hdom, hctrl⟩
      · rw [hlog, List.filter_cons, if_pos (by rw [← hc0]; simpa using hmem)]
        simp [List.append_assoc]
      · intro c2 h2
        rcases List.mem_cons.mp h2 with he | h2r
        · rw [he, hframe c hcr, mapGet_set_self]
          simp [setDel]
        · exact hmem2 c2 h2r
      · intro c' hc'
        have hne : c' ≠ c := fun he => hc' (he ▸ List.mem_cons_self _ _)
        rw [hframe c' (fun h => hc' (List.mem_cons_of_mem _ h))]
        exact mapGet_set_other _ _ _ _ hne
    · rw [removeTargetCtrlStep_skip θ tn t s c hmem]
      cases hm : mapGet s.targetsByController c with
      | none =>
        simp only [hm]
        have hcomp' : ∀ c2 ∈ rest,
            mapGet ({ s with targetsByController :=
                (mapSet s.targetsByController c []) } : PState).targetsByController c2 =
              mapGet tbc0 c2 := by
          intro c2 h2
          have hne : c2 ≠ c := fun he => hcr (he ▸ h2)
          dsimp only
          rw [mapGet_set_other _ _ _ _ hne]
          exact hcomp c2 (List.mem_cons_of_mem _ h2)
        obtain ⟨hlog, hmem2, hframe, hdom, hctrl⟩ := ih _ hndr hcomp'
        refine ⟨?_, ?_, ?_, hdom, hctrl⟩
        · rw [hlog, List.filter_cons, if_neg (by rw [← hc0]; simpa using hmem)]
        · intro c2 h2
          rcases List.mem_cons.mp h2 with he | h2r
          · rw [he, hframe c hcr]
            dsimp only
            rw [mapGet_set_self]
            simp
          · exact hmem2 c2 h2r
        · intro c' hc'
          have hne : c' ≠ c := fun he => hc' (he ▸ List.mem_cons_self _ _)
          rw [hframe c' (fun h => hc' (List.mem_cons_of_mem _ h))]
          exact mapGet_set_other _ _ _ _ hne
      | some tbc =>
        simp only [hm]
        obtain ⟨hlog, hmem2, hframe, hdom, hctrl⟩ :=
          ih s hndr (fun c2 h2 => hcomp c2 (List.mem_cons_of_mem _ h2))
        refine ⟨?_, ?_, ?_, hdom, hctrl⟩
        · rw [hlog, List.filter_cons, if_neg (by rw [← hc0]; simpa using hmem)]
        · intro c2 h2
          rcases List.mem_cons.mp h2 with he | h2r
          · rw [he, hframe c hcr]
            exact hmem
          · exact hmem2 c2 h2r
        · intro c' hc'
          exact hframe c' (fun h => hc' (List.mem_cons_of_mem _ h))

theorem removeStored_controllers (st : PState) (t : Nat) (i tn : Str) :
    (removeStoredTargetByTargetName st t i tn).controllers = st.controllers := by
  unfold removeStoredTargetByTargetName
  split
  · rfl
  · split
    · rfl
    · rfl

theorem removeStored_tbc (st : PState) (t : Nat) (i tn : Str) :
    (removeStoredTargetByTargetName st t i tn).targetsByController = st.targetsByController := by
  unfold removeStoredTargetByTargetName
  split
  · rfl
  · split
    · rfl
    · rfl

theorem removeStored_dom (st : PState) (t : Nat) (i tn : Str) :
    (removeStoredTargetByTargetName st t i tn).dom = st.dom := by
  unfold removeStoredTargetByTargetName
  split
  · rfl
  · split
    · rfl
    · rfl

theorem removeStored_log (st : PState) (t : Nat) (i tn : Str) :
    (removeStoredTargetByTargetName st t i tn).hookLog = st.hookLog := by
  unfold removeStoredTargetByTargetName
  split
  · rfl
  · split
    · rfl
    · rfl

theorem addTargetOne_char (θ : Oracle) (st : PState) (t : Nat) (i : Str)
    (hnd : ((mapGet st.controllers i).getD []).Nodup) :
    (addTargetOne θ st t i).hookLog = st.hookLog ++ addFanout θ st t i ∧
    (addTargetOne θ st t i).dom = st.dom ∧
    (addTargetOne θ st t i).controllers = st.controllers ∧
    (∀ c ∈ (mapGet st.controllers i).getD [],
      (getAttr st.dom t (getTargetAttributeName i)).isSome = true →
      t ∈ (mapGet (addTargetOne θ st t i).targetsByController c).getD []) := by
  unfold addTargetOne addFanout
  cases hA : getAttr st.dom t (getTargetAttributeName i) with
  | none =>
    simp only [hA]
    refine ⟨by simp, by trivial, by trivial, ?_⟩
    intro c _ hiss
    cases hiss
  | some tn =>
    simp only [hA]
    split
    · rename_i hC0
      have hC : mapGet st.controllers i = none := hC0
      simp only [hC]
      refine ⟨by simp [storeTargetByTargetName], by trivial, by trivial, ?_⟩
      intro c hc _
      simp at hc
    · rename_i ctrls hC0
      have hC : mapGet st.controllers i = some ctrls := hC0
      simp only [hC]
      have hndc : ctrls.Nodup := by
        rw [hC] at hnd
        exact hnd

      obtain ⟨hlog, hmem, hframe, hdom, hctrl⟩ :=
        addCtrlFold_char θ tn t st.targetsByController ctrls
          (storeTargetByTargetName
            { st with targetsByIdentifier :=
                (mapSet st.targetsByIdentifier i
                  (setAdd ((mapGet st.targetsByIdentifier i).getD []) t)) }
            t i tn)
          hndc (fun c _ => rfl)
      refine ⟨hlog, hdom, hctrl, ?_⟩
      intro c hc _
      exact hmem c (by simpa using hc)

theorem rTFII_controllers (st : PState) (t : Nat) (i : Str) :
    (removeTargetFromIdentifierIndex st t i).controllers = st.controllers := by
  unfold removeTargetFromIdentifierIndex
  split
  · rfl
  · rfl

theorem rTFII_tbc (st : PState) (t : Nat) (i : Str) :
    (removeTargetFromIdentifierIndex st t i).targetsByController = st.targetsByController := by
  unfold removeTargetFromIdentifierIndex
  split
  · rfl
  · rfl

theorem rTFII_dom (st : PState) (t : Nat) (i : Str) :
    (removeTargetFromIdentifierIndex st t i).dom = st.dom := by
  unfold removeTargetFromIdentifierIndex
  split
  · rfl
  · rfl

theorem rTFII_log (st : PState) (t : Nat) (i : Str) :
    (removeTargetFromIdentifierIndex st t i).hookLog = st.hookLog := by
  unfold removeTargetFromIdentifierIndex
  split
  · rfl
  · rfl

theorem removeTargetOne_char (θ : Oracle) (st : PState) (t : Nat) (i : Str)
    (hnd : ((mapGet st.controllers i).getD []).Nodup) :
    (removeTargetOne θ st t i).hookLog = st.hookLog ++ removeFanout θ st t i ∧
    (removeTargetOne θ st t i).dom = st.dom ∧
    (removeTargetOne θ st t i).controllers = st.controllers ∧
    (∀ c ∈ (mapGet st.controllers i).getD [],
      (getAttr st.dom t (getTargetAttributeName i)).isSome = true →
      t ∉ (mapGet (removeTargetOne θ st t i).targetsByController c).getD []) := by
  unfold removeTargetOne removeFanout
  cases hA : getAttr st.dom t (getTargetAttributeName i) with
  | none =>
    simp only [hA]
    refine ⟨by simp, by trivial, by trivial, ?_⟩
    intro c _ hiss
    cases hiss
  | some tn =>
    simp only [hA]
    split
    · rename_i hC0
      rw [removeStored_controllers, rTFII_controllers] at hC0
      simp only [hC0]
      refine ⟨?_, ?_, ?_, ?_⟩
      · rw [removeStored_log, rTFII_log]
        simp
      · rw [removeStored_dom, rTFII_dom]
      · rw [removeStored_controllers, rTFII_controllers]
      · intro c hc _
        simp at hc
    · rename_i ctrls hC0
      rw [removeStored_controllers, rTFII_controllers] at hC0
      simp only [hC0]
      have hndc : ctrls.Nodup := by
        rw [hC0] at hnd
        exact hnd
      have hcomp : ∀ c ∈ ctrls,
          mapGet (removeStoredTargetByTargetName
            (removeTargetFromIdentifierIndex st t i) t i tn).targetsByController c =
            mapGet st.targetsByController c := by
        intro c _
        rw [removeStored_tbc, rTFII_tbc]
      obtain ⟨hlog, hmem, hframe, hdom, hctrl⟩ :=
        removeCtrlFold_char θ tn t st.targetsByController ctrls
          (removeStoredTargetByTargetName (removeTargetFromIdentifierIndex st t i) t i tn)
          hndc hcomp
      refine ⟨?_, ?_, ?_, ?_⟩
      · rw [hlog, removeStored_log, rTFII_log]
      · rw [hdom, removeStored_dom, rTFII_dom]
      · rw [hctrl, removeStored_controllers, rTFII_controllers]
      · intro c hc _
        exact hmem c (by simpa using hc)

theorem count_map_filter_notmem {α β : Type} [DecidableEq α] [DecidableEq β]
    (f : α → β) (p : α → Bool) (c : α)
    (hinj : ∀ a, f a = f c → a = c) :
    ∀ l : List α, c ∉ l → ((l.filter p).map f).count (f c) = 0 := by
  intro l
  induction l with
  | nil => intro _; simp
  | cons a rest ih =>
    intro hc
    have hca : f a ≠ f c := fun he => hc ((hinj a he) ▸ List.mem_cons_self _ _)
    rw [List.filter_cons]
    by_cases hp : p a
    · rw [if_pos (by simpa using hp)]
      rw [List.map_cons, List.count_cons]
      rw [ih (fun h => hc (List.mem_cons_of_mem _ h))]
      simp [hca]
    · rw [if_neg (by simpa using hp)]
      exact ih (fun h => hc (List.mem_cons_of_mem _ h))

theorem count_map_filter_nodup {α β : Type} [DecidableEq α] [DecidableEq β]
    (f : α → β) (p : α → Bool) (c : α)
    (hinj : ∀ a, f a = f c → a = c) :
    ∀ l : List α, l.Nodup → c ∈ l →
      ((l.filter p).map f).count (f c) = if p c then 1 else 0 := by
  intro l
  induction l with
  | nil => intro _ hc; cases hc
  | cons a rest ih =>
    intro hnd hc
    have hcr : a ∉ rest := (List.nodup_cons.mp hnd).1
    have hndr : rest.Nodup := (List.nodup_cons.mp hnd).2
    rcases List.mem_cons.mp hc with he | hr
    · rw [← he] at hcr ⊢
      rw [List.filter_cons]
      by_cases hp : p c
      · rw [if_pos (by simpa using hp), List.map_cons, List.count_cons]
        rw [count_map_filter_notmem f p c hinj rest hcr]
        simp [hp]
      · rw [if_neg (by simpa using hp)]
        rw [count_map_filter_notmem f p c hinj rest hcr]
        simp [hp]
    · have hac : f a ≠ f c := fun he2 => hcr ((hinj a he2) ▸ hr)
      rw [List.filter_cons]
      by_cases hp : p a
      · rw [if_pos (by simpa using hp), List.map_cons, List.count_cons]
        rw [ih hndr hr]
        simp [hac]
      · rw [if_neg (by simpa using hp)]
        exact ih hndr hr

/-- Hook events one matching directive contributes inside the forwarding
handler: one invocation per live instance of the directive's identifier. -/
def proxyEventsOf (θ : Oracle) (st : PState) (target : Nat) (origMethod : Str)
    (ta : PAction) : List HookEvent :=
  if ta.identifier = portalIdentifier ∨ ta.method ≠ origMethod then []
  else
    match mapGet st.controllers ta.identifier with
    | none => []
    | some ctrls => ctrls.map (fun c => ⟨c, ta.method, target, θ c ta.method target⟩)

/-- The complete fan-out of one forwarding-handler invocation. -/
def proxyFanout (θ : Oracle) (st : PState) (target : Nat) (origMethod : Str) :
    List HookEvent :=
  match parseActionsOf st.dom target with
  | none => []
  | some targetActions => targetActions.flatMap (proxyEventsOf θ st target origMethod)

theorem logHook_fold (θ : Oracle) (meth : Str) (t : Nat) :
    ∀ (ctrls : List Ctrl) (s : PState),
      List.foldl (fun s2 c => logHook θ s2 c meth t) s ctrls =
        { s with hookLog := s.hookLog ++ ctrls.map (fun c => ⟨c, meth, t, θ c meth t⟩) } := by
  intro ctrls
  induction ctrls with
  | nil => intro s; simp
  | cons c rest ih =>
    intro s
    rw [List.foldl_cons, ih]
    simp [logHook]

theorem proxyFold_char (θ : Oracle) (st : PState) (t : Nat) (m : Str) :
    ∀ (actions : List PAction) (s : PState),
      s.controllers = st.controllers →
      actions.foldl (fun s ta =>
        if ta.identifier = portalIdentifier ∨ ta.method ≠ m then s
        else
          match mapGet s.controllers ta.identifier with
          | none => s
          | some ctrls => ctrls.foldl (fun s2 c => logHook θ s2 c ta.method t) s) s =
        { s with hookLog := s.hookLog ++ actions.flatMap (proxyEventsOf θ st t m) } := by
  intro actions
  induction actions with
  | nil => intro s _; simp
  | cons ta rest ih =>
    intro s hc
    rw [List.foldl_cons]
    by_cases hskip : ta.identifier = portalIdentifier ∨ ta.method ≠ m
    · rw [if_pos hskip, ih s hc]
      rw [List.flatMap_cons, show proxyEventsOf θ st t m ta = [] from by
        unfold proxyEventsOf; rw [if_pos hskip]]
      rfl
    · rw [if_neg hskip]
      cases hm : mapGet s.controllers ta.identifier with
      | none =>
        simp only [hm]
        rw [ih s hc]
        rw [List.flatMap_cons, show proxyEventsOf θ st t m ta = [] from by
          unfold proxyEventsOf
          rw [if_neg hskip, ← hc, hm]]
        rfl
      | some ctrls =>
        simp only [hm]
        rw [logHook_fold]
        rw [ih _ (by simpa using hc)]
        rw [List.flatMap_cons, show proxyEventsOf θ st t m ta =
            ctrls.map (fun c => ⟨c, ta.method, t, θ c ta.method t⟩) from by
          unfold proxyEventsOf
          rw [if_neg hskip, ← hc, hm]]
        simp [List.append_assoc]

theorem invokeProxyAction_char (θ : Oracle) (st : PState) (t : Nat) (m : Str) :
    (invokeProxyAction θ st t m).1 =
      { st with hookLog := st.hookLog ++ proxyFanout θ st t m } ∧
    (invokeProxyAction θ st t m).2 = (parseActionsOf st.dom t).isNone := by
  unfold invokeProxyAction proxyFanout
  cases hp : parseActionsOf st.dom t with
  | none =>
    simp only [hp]
    exact ⟨by simp, rfl⟩
  | some actions =>
    simp only [hp]
    exact ⟨proxyFold_char θ st t m actions st rfl, rfl⟩

theorem addFanout_strip (θ1 θ2 : Oracle) (st : PState) (t : Nat) (i : Str) :
    (addFanout θ1 st t i).map stripEv = (addFanout θ2 st t i).map stripEv := by
  unfold addFanout
  split
  · rfl
  · split
    · rfl
    · simp [stripEv]

theorem removeFanout_strip (θ1 θ2 : Oracle) (st : PState) (t : Nat) (i : Str) :
    (removeFanout θ1 st t i).map stripEv = (removeFanout θ2 st t i).map stripEv := by
  unfold removeFanout
  split
  · rfl
  · split
    · rfl
    · simp [stripEv]

theorem proxyEventsOf_strip (θ1 θ2 : Oracle) (st : PState) (t : Nat) (m : Str) (ta : PAction) :
    (proxyEventsOf θ1 st t m ta).map stripEv = (proxyEventsOf θ2 st t m ta).map stripEv := by
  unfold proxyEventsOf
  split
  · rfl
  · split
    · rfl
    · simp [stripEv]

theorem flatMap_proxyEvents_strip (θ1 θ2 : Oracle) (st : PState) (t : Nat) (m : Str) :
    ∀ actions : List PAction,
      (actions.flatMap (proxyEventsOf θ1 st t m)).map stripEv =
        (actions.flatMap (proxyEventsOf θ2 st t m)).map stripEv := by
  intro actions
  induction actions with
  | nil => rfl
  | cons ta rest ih =>
    simp only [List.flatMap_cons, List.map_append, ih,
      proxyEventsOf_strip θ1 θ2 st t m ta]

theorem proxyFanout_strip (θ1 θ2 : Oracle) (st : PState) (t : Nat) (m : Str) :
    (proxyFanout θ1 st t m).map stripEv = (proxyFanout θ2 st t m).map stripEv := by
  unfold proxyFanout
  split
  · rfl
  · exact flatMap_proxyEvents_strip θ1 θ2 st t m _

/-- Claim C4: `addTarget` is idempotent with respect to hook delivery.  For
an element carrying the identifier's target attribute: (1) a second
`addTarget` call for the same (element, identifier) pair performs no further
hook invocations; (2) the first call invokes the connected hook exactly once
on every live instance not yet notified for the element and never on an
already-notified instance — so repeated calls fire the hook exactly once per
instance until the notified mark is cleared; (3) `removeTarget` invokes the
disconnected hook exactly once on every instance previously marked notified
and never on others. -/
theorem addTarget_hook_idempotence (θ : Oracle) (st : PState) (t : Nat) (i : Str) (tn : Str)
    (hA : getAttr st.dom t (getTargetAttributeName i) = some tn)
    (hnd : ((mapGet st.controllers i).getD []).Nodup) :
    (addTargetOne θ (addTargetOne θ st t i) t i).hookLog = (addTargetOne θ st t i).hookLog ∧
    (∀ c ∈ (mapGet st.controllers i).getD [],
      ((addTargetOne θ st t i).hookLog.drop st.hookLog.length).count
          ⟨c, getTargetConnectedMethodName tn, t, θ c (getTargetConnectedMethodName tn) t⟩ =
        if t ∈ (mapGet st.targetsByController c).getD [] then 0 else 1) ∧
    (∀ c ∈ (mapGet st.controllers i).getD [],
      ((removeTargetOne θ st t i).hookLog.drop st.hookLog.length).count
          ⟨c, getTargetDisconnectedMethodName tn, t, θ c (getTargetDisconnectedMethodName tn) t⟩ =
        if t ∈ (mapGet st.targetsByController c).getD [] then 1 else 0) := by
  obtain ⟨hlog1, hdom1, hctrl1, hmem1⟩ := addTargetOne_char θ st t i hnd
  refine ⟨?_, ?_, ?_⟩
  · have hnd1 : ((mapGet (addTargetOne θ st t i).controllers i).getD []).Nodup := by
      rw [hctrl1]
      exact hnd
    obtain ⟨hlog2, _, _, _⟩ := addTargetOne_char θ (addTargetOne θ st t i) t i hnd1
    rw [hlog2]
    have hfan : addFanout θ (addTargetOne θ st t i) t i = [] := by
      unfold addFanout
      rw [hdom1, hA]
      rw [hctrl1]
      cases hC : mapGet st.controllers i with
      | none => simp only [hC]
      | some ctrls =>
        simp only [hC]
        have hall : ∀ c ∈ ctrls,
            ¬ (decide (t ∉ (mapGet (addTargetOne θ st t i).targetsByController c).getD []) = true) := by
          intro c hc
          have hm := hmem1 c (by rw [hC]; exact hc) (by rw [hA]; rfl)
          simp [hm]
        rw [List.filter_eq_nil_iff.mpr hall]
        rfl
    rw [hfan]
    simp
  · intro c hc
    rw [hlog1, List.drop_left]
    unfold addFanout
    rw [hA]
    cases hC : mapGet st.controllers i with
    | none =>
      rw [hC] at hc
      cases hc
    | some ctrls =>
      have hcm : c ∈ ctrls := by
        rw [hC] at hc
        exact hc
      have hndc : ctrls.Nodup := by
        rw [hC] at hnd
        exact hnd
      have hcount := count_map_filter_nodup
        (fun c => (⟨c, getTargetConnectedMethodName tn, t,
          θ c (getTargetConnectedMethodName tn) t⟩ : HookEvent))
        (fun c => decide (t ∉ (mapGet st.targetsByController c).getD []))
        c (fun a h => congrArg HookEvent.ctrl h) ctrls hndc hcm
      rw [hcount]
      by_cases hin : t ∈ (mapGet st.targetsByController c).getD []
      · simp [hin]
      · simp [hin]
  · obtain ⟨hlog3, _, _, _⟩ := removeTargetOne_char θ st t i hnd
    intro c hc
    rw [hlog3, List.drop_left]
    unfold removeFanout
    rw [hA]
    cases hC : mapGet st.controllers i with
    | none =>
      rw [hC] at hc
      cases hc
    | some ctrls =>
      have hcm : c ∈ ctrls := by
        rw [hC] at hc
        exact hc
      have hndc : ctrls.Nodup := by
        rw [hC] at hnd
        exact hnd
      have hcount := count_map_filter_nodup
        (fun c => (⟨c, getTargetDisconnectedMethodName tn, t,
          θ c (getTargetDisconnectedMethodName tn) t⟩ : HookEvent))
        (fun c => decide (t ∈ (mapGet st.targetsByController c).getD []))
        c (fun a h => congrArg HookEvent.ctrl h) ctrls hndc hcm
      rw [hcount]
      by_cases hin : t ∈ (mapGet st.targetsByController c).getD []
      · simp [hin]
      · simp [hin]

/-- Claim C6: hook fan-outs are isolated against throwing hooks.  For every
oracle — in particular ones under which some instances' hooks throw: (1,2)
`addTarget`/`removeTarget` append the complete fan-out to the log (every
instance in the fan-out receives its invocation; a throw is caught at the
call site and recorded in the event's `threw` flag); (3) which invocations
happen is independent of which hooks throw (the logs agree after erasing the
flags); (4) the per-instance notified mark is still updated for every
instance of the fan-out, throwing or not (`finally`); (5) the synthesized
forwarding handler delivers its complete fan-out and touches nothing but the
log; (6) that fan-out, too, is independent of which hooks throw. -/
theorem hook_fanout_isolation :
    (∀ (θ : Oracle) (st : PState) (t : Nat) (i : Str),
       ((mapGet st.controllers i).getD []).Nodup →
       (addTargetOne θ st t i).hookLog = st.hookLog ++ addFanout θ st t i) ∧
    (∀ (θ : Oracle) (st : PState) (t : Nat) (i : Str),
       ((mapGet st.controllers i).getD []).Nodup →
       (removeTargetOne θ st t i).hookLog = st.hookLog ++ removeFanout θ st t i) ∧
    (∀ (θ1 θ2 : Oracle) (st : PState) (t : Nat) (i : Str),
       (addFanout θ1 st t i).map stripEv = (addFanout θ2 st t i).map stripEv ∧
       (removeFanout θ1 st t i).map stripEv = (removeFanout θ2 st t i).map stripEv) ∧
    (∀ (θ : Oracle) (st : PState) (t : Nat) (i : Str) (c : Ctrl),
       ((mapGet st.controllers i).getD []).Nodup →
       c ∈ (mapGet st.controllers i).getD [] →
       (getAttr st.dom t (getTargetAttributeName i)).isSome = true →
       t ∈ (mapGet (addTargetOne θ st t i).targetsByController c).getD [] ∧
       t ∉ (mapGet (removeTargetOne θ st t i).targetsByController c).getD []) ∧
    (∀ (θ : Oracle) (st : PState) (t : Nat) (m : Str),
       (invokeProxyAction θ st t m).1 =
         { st with hookLog := st.hookLog ++ proxyFanout θ st t m }) ∧
    (∀ (θ1 θ2 : Oracle) (st : PState) (t : Nat) (m : Str),
       (proxyFanout θ1 st t m).map stripEv = (proxyFanout θ2 st t m).map stripEv) := by
  refine ⟨?_, ?_, ?_, ?_, ?_, ?_⟩
  · intro θ st t i hnd
    exact (addTargetOne_char θ st t i hnd).1
  · intro θ st t i hnd
    exact (removeTargetOne_char θ st t i hnd).1
  · intro θ1 θ2 st t i
    exact ⟨addFanout_strip θ1 θ2 st t i, removeFanout_strip θ1 θ2 st t i⟩
  · intro θ st t i c hnd hc hiss
    exact ⟨(addTargetOne_char θ st t i hnd).2.2.2 c hc hiss,
           (removeTargetOne_char θ st t i hnd).2.2.2 c hc hiss⟩
  · intro θ st t m
    exact (invokeProxyAction_char θ st t m).1
  · intro θ1 θ2 st t m
    exact proxyFanout_strip θ1 θ2 st t m

/-- Subtree for the C4/C6 witnesses: one bound target element. -/
def c4Dom : Dom := [(5, ⟨true, [(strOf "data-a-target", strOf "x")]⟩)]

def c4State : PState :=
  { initPState c4Dom with
      isConnected := true
      identifiers := [strOf "a"]
      controllers := [(strOf "a", [ctrlA])] }

/-- Oracle under which every hook invocation throws. -/
def allThrowOracle : Oracle := fun _ _ _ => true

/-- Claim C4, witness: the idempotence clause applied to a concrete bound
element with one live instance. -/
theorem addTarget_hook_idempotence_witness :
    (addTargetOne noThrowOracle (addTargetOne noThrowOracle c4State 5 (strOf "a")) 5
      (strOf "a")).hookLog = (addTargetOne noThrowOracle c4State 5 (strOf "a")).hookLog :=
  (addTarget_hook_idempotence noThrowOracle c4State 5 (strOf "a") (strOf "x")
    (by decide) (by decide)).1

/-- Claim C6, witness: the add-fan-out clause applied at a concrete state
under the oracle that makes every hook throw. -/
theorem hook_fanout_isolation_witness :
    (addTargetOne allThrowOracle c4State 5 (strOf "a")).hookLog =
      c4State.hookLog ++ addFanout allThrowOracle c4State 5 (strOf "a") :=
  hook_fanout_isolation.1 allThrowOracle c4State 5 (strOf "a") (by decide)

/-! ### Claim C5: teardown completeness -/

theorem mapGet_append {α β : Type} [DecidableEq α] (l1 l2 : List (α × β)) (k : α) :
    mapGet (l1 ++ l2) k =
      (match mapGet l1 k with
       | some v => some v
       | none => mapGet l2 k) := by
  induction l1 with
  | nil => simp [mapGet]
  | cons p rest ih =>
    obtain ⟨k0, v0⟩ := p
    by_cases h0 : k0 = k
    · simp [mapGet, h0]
    · simpa [mapGet, h0] using ih

theorem mem_keys_of_mapGet_some {α β : Type} [DecidableEq α] (m : List (α × β)) (k : α)
    (v : β) (h : mapGet m k = some v) : k ∈ m.map Prod.fst := by
  induction m with
  | nil => cases h
  | cons p rest ih =>
    obtain ⟨k0, v0⟩ := p
    by_cases h0 : k0 = k
    · simp [h0]
    · simp only [mapGet, if_neg h0] at h
      simp [ih h]

/-- Saved original-method record of an instance (empty when never patched). -/
def savedOf (st : PState) (c : Ctrl) : List (Str × Desc) :=
  (mapGet st.controllerOriginalMethods c).getD []

/-- Restoration invariant of the accessor-interception stores: every saved
original descriptor is the class descriptor for its name, and every
accessor name without a saved original currently shows its class
descriptor.  `initPState` satisfies it, every relay entry point preserves
it, and it is what makes a later restore reproduce the original
descriptors. -/
def RestoreInv (st : PState) : Prop :=
  ∀ c : Ctrl,
    (∀ p ∈ savedOf st c, mapGet c.descs p.1 = some p.2) ∧
    (∀ n, mapGet (savedOf st c) n = none → currentDesc st c n = mapGet c.descs n)

theorem RestoreInv_of_omip {s1 s2 : PState} (h : OmIp s2 = OmIp s1)
    (hinv : RestoreInv s1) : RestoreInv s2 := by
  intro c
  have hcm : s2.controllerOriginalMethods = s1.controllerOriginalMethods := congrArg Prod.fst h
  have hip : s2.instProps = s1.instProps := congrArg Prod.snd h
  have hs : savedOf s2 c = savedOf s1 c := by
    unfold savedOf
    rw [hcm]
  have hcd : ∀ n, currentDesc s2 c n = currentDesc s1 c n := by
    intro n
    unfold currentDesc
    rw [hip]
  refine ⟨?_, ?_⟩
  · intro p hp
    exact (hinv c).1 p (hs ▸ hp)
  · intro n hn
    rw [hcd n]
    exact (hinv c).2 n (hs ▸ hn)

theorem RestoreInv_init (d : Dom) : RestoreInv (initPState d) := by
  intro c
  refine ⟨?_, ?_⟩
  · intro p hp
    simp [savedOf, initPState, mapGet] at hp
  · intro n _
    rfl

theorem collectDescriptors_pairs (st : PState) (c : Ctrl) :
    ∀ p ∈ collectDescriptors st c, currentDesc st c p.1 = some p.2 := by
  unfold collectDescriptors
  generalize targetDescriptorsMap c.targets = tdm
  suffices h : ∀ (tdm : List (Str × Str)) (acc : List (Str × Desc)),
      (∀ p ∈ acc, currentDesc st c p.1 = some p.2) →
      ∀ p ∈ tdm.foldl (fun acc nt =>
          match currentDesc st c nt.1 with
          | none => acc
          | some d => acc ++ [(nt.1, d)]) acc,
        currentDesc st c p.1 = some p.2 by
    exact h tdm [] (fun p hp => by cases hp)
  intro tdm2
  induction tdm2 with
  | nil => intro acc hacc; exact hacc
  | cons nt rest ih =>
    intro acc hacc
    rw [List.foldl_cons]
    cases hd : currentDesc st c nt.1 with
    | none =>
      simp only [hd]
      exact ih acc hacc
    | some d =>
      simp only [hd]
      refine ih _ ?_
      intro p hp
      rcases List.mem_append.mp hp with h1 | h2
      · exact hacc p h1
      · rcases List.mem_singleton.mp h2 with rfl
        exact hd

theorem patchProps_skip (n : Str) :
    ∀ (collected : List (Str × Desc)) (props : List (Str × Desc)),
      mapGet collected n = none →
      mapGet (patchProps props collected) n = mapGet props n := by
  intro collected
  induction collected with
  | nil => intro props _; rfl
  | cons nd rest ih =>
    intro props hn
    have hne : nd.1 ≠ n := by
      intro he
      simp [mapGet, he] at hn
    simp only [mapGet, if_neg hne] at hn
    unfold patchProps at ih ⊢
    rw [List.foldl_cons, ih _ hn, mapGet_set_other _ _ _ _ (fun h => hne h.symm)]

theorem writeProps_char (c : Ctrl) (n : Str) :
    ∀ (saved : List (Str × Desc)) (props : List (Str × Desc)),
      (∀ p ∈ saved, mapGet c.descs p.1 = some p.2) →
      (mapGet saved n = none →
        mapGet (writeProps props saved) n = mapGet props n) ∧
      (∀ d, mapGet saved n = some d →
        mapGet (writeProps props saved) n = mapGet c.descs n) := by
  intro saved
  induction saved with
  | nil =>
    intro props _
    exact ⟨fun _ => rfl, fun d h => by cases h⟩
  | cons p0 rest ih =>
    intro props hall
    have hdesc : mapGet c.descs p0.1 = some p0.2 := hall p0 (List.mem_cons_self _ _)
    have hallr : ∀ p ∈ rest, mapGet c.descs p.1 = some p.2 :=
      fun p hp => hall p (List.mem_cons_of_mem _ hp)
    unfold writeProps at ih ⊢
    constructor
    · intro hn
      have hne : p0.1 ≠ n := by
        intro he
        simp [mapGet, he] at hn
      simp only [mapGet, if_neg hne] at hn
      rw [List.foldl_cons, (ih _ hallr).1 hn,
        mapGet_set_other _ _ _ _ (fun h => hne h.symm)]
    · intro d hn
      rw [List.foldl_cons]
      by_cases he : p0.1 = n
      · subst he
        cases hrest : mapGet rest p0.1 with
        | none =>
          rw [(ih _ hallr).1 hrest, mapGet_set_self, hdesc]
        | some d2 =>
          rw [(ih _ hallr).2 d2 hrest]
      · simp only [mapGet, if_neg he] at hn
        rw [(ih _ hallr).2 d hn]

theorem override_patched_state_inv (st : PState) (c : Ctrl) (hinv : RestoreInv st)
    (hnone : mapGet st.controllerOriginalMethods c = none) :
    RestoreInv { st with
        instProps := (mapSet st.instProps c
          (patchProps ((mapGet st.instProps c).getD []) (collectDescriptors st c))),
        controllerOriginalMethods :=
          (mapSet st.controllerOriginalMethods c (collectDescriptors st c)) } := by
  intro c2
  have hsavedSt : savedOf st c = [] := by
    unfold savedOf
    rw [hnone]
    rfl
  by_cases hc2 : c2 = c
  · subst hc2
    constructor
    · intro p hp
      have hsp : p ∈ collectDescriptors st c2 := by
        unfold savedOf at hp
        dsimp only at hp
        rw [mapGet_set_self] at hp
        exact hp
      have hcd := collectDescriptors_pairs st c2 p hsp
      have h2 := (hinv c2).2 p.1 (by rw [hsavedSt]; rfl)
      rw [← h2]
      exact hcd
    · intro n hn
      have hn' : mapGet (collectDescriptors st c2) n = none := by
        unfold savedOf at hn
        dsimp only at hn
        rw [mapGet_set_self] at hn
        exact hn
      have hcur : currentDesc st c2 n = mapGet c2.descs n :=
        (hinv c2).2 n (by rw [hsavedSt]; rfl)
      unfold currentDesc
      dsimp only
      rw [mapGet_set_self]
      dsimp only
      rw [patchProps_skip n _ _ hn']
      cases hip : mapGet st.instProps c2 with
      | none => rfl
      | some props0 =>
        unfold currentDesc at hcur
        rw [hip] at hcur
        simpa using hcur
  · constructor
    · intro p hp
      refine (hinv c2).1 p ?_
      unfold savedOf at hp ⊢
      dsimp only at hp
      rw [mapGet_set_other _ _ _ _ hc2] at hp
      exact hp
    · intro n hn
      have hs : mapGet (savedOf st c2) n = none := by
        unfold savedOf at hn ⊢
        dsimp only at hn
        rw [mapGet_set_other _ _ _ _ hc2] at hn
        exact hn
      have hcd := (hinv c2).2 n hs
      unfold currentDesc at hcd ⊢
      dsimp only
      rw [mapGet_set_other _ _ _ _ hc2]
      exact hcd

theorem override_restoreInv (st : PState) (c : Ctrl) (hinv : RestoreInv st) :
    RestoreInv (overrideControllerGetTargetMethods st c).1 := by
  unfold overrideControllerGetTargetMethods
  split
  · exact hinv
  · rename_i hnone
    split
    · exact hinv
    · exact override_patched_state_inv st c hinv hnone

theorem mapGet_some_mem {α β : Type} [DecidableEq α] (m : List (α × β)) (k : α) (v : β)
    (h : mapGet m k = some v) : (k, v) ∈ m := by
  induction m with
  | nil => cases h
  | cons p rest ih =>
    obtain ⟨k0, v0⟩ := p
    by_cases h0 : k0 = k
    · subst h0
      simp only [mapGet, if_pos rfl] at h
      cases h
      exact List.mem_cons_self _ _
    · simp only [mapGet, if_neg h0] at h
      exact List.mem_cons_of_mem _ (ih h)

/-- `restoreControllerGetTargetMethods` on a restorable state: the invariant
is kept, the restored instance shows its class descriptors, other instances
and their saved entries are untouched, and the instance's saved entry is
gone. -/
theorem restore_char (st : PState) (c : Ctrl) (hinv : RestoreInv st) :
    RestoreInv (restoreControllerGetTargetMethods st c) ∧
    (∀ n, currentDesc (restoreControllerGetTargetMethods st c) c n = mapGet c.descs n) ∧
    (∀ c2, c2 ≠ c → ∀ n,
      currentDesc (restoreControllerGetTargetMethods st c) c2 n = currentDesc st c2 n) ∧
    mapGet (restoreControllerGetTargetMethods st c).controllerOriginalMethods c = none ∧
    (∀ c2, c2 ≠ c →
      mapGet (restoreControllerGetTargetMethods st c).controllerOriginalMethods c2 =
        mapGet st.controllerOriginalMethods c2) := by
  unfold restoreControllerGetTargetMethods
  cases hm : mapGet st.controllerOriginalMethods c with
  | none =>
    refine ⟨hinv, ?_, fun c2 _ n => rfl, hm, fun c2 _ => rfl⟩
    intro n
    exact (hinv c).2 n (by unfold savedOf; rw [hm]; rfl)
  | some saved =>
    have hpairs : ∀ p ∈ saved, mapGet c.descs p.1 = some p.2 := by
      intro p hp
      refine (hinv c).1 p ?_
      unfold savedOf
      rw [hm]
      exact hp
    have hcur : ∀ n, currentDesc
        ({ st with
            instProps := (mapSet st.instProps c
              (writeProps ((mapGet st.instProps c).getD []) saved)),
            controllerOriginalMethods := (mapDel st.controllerOriginalMethods c) } : PState)
          c n = mapGet c.descs n := by
      intro n
      unfold currentDesc
      dsimp only
      rw [mapGet_set_self]
      dsimp only
      cases hsn : mapGet saved n with
      | some d =>
        rw [(writeProps_char c n saved _ hpairs).2 d hsn]
        have : mapGet c.descs n = some d := by
          have := hpairs (n, d) (mapGet_some_mem saved n d hsn)
          simpa using this
        rw [this]
      | none =>
        rw [(writeProps_char c n saved _ hpairs).1 hsn]
        have hbn : currentDesc st c n = mapGet c.descs n :=
          (hinv c).2 n (by unfold savedOf; rw [hm]; simpa using hsn)
        unfold currentDesc at hbn
        cases hip : mapGet st.instProps c with
        | none => simp [mapGet]
        | some props0 =>
          rw [hip] at hbn
          simpa using hbn
    have hframe : ∀ c2, c2 ≠ c → ∀ n, currentDesc
        ({ st with
            instProps := (mapSet st.instProps c
              (writeProps ((mapGet st.instProps c).getD []) saved)),
            controllerOriginalMethods := (mapDel st.controllerOriginalMethods c) } : PState)
          c2 n = currentDesc st c2 n := by
      intro c2 hc2 n
      unfold currentDesc
      dsimp only
      rw [mapGet_set_other _ _ _ _ hc2]
    refine ⟨?_, hcur, hframe, by dsimp only; rw [mapGet_del_self], ?_⟩
    · intro c2
      by_cases hc2 : c2 = c
      · subst hc2
        constructor
        · intro p hp
          unfold savedOf at hp
          dsimp only at hp
          rw [mapGet_del_self] at hp
          cases hp
        · intro n _
          exact hcur n
      · constructor
        · intro p hp
          refine (hinv c2).1 p ?_
          unfold savedOf at hp ⊢
          dsimp only at hp
          rw [mapGet_del_other _ _ _ hc2] at hp
          exact hp
        · intro n hn
          rw [hframe c2 hc2 n]
          refine (hinv c2).2 n ?_
          unfold savedOf at hn ⊢
          dsimp only at hn
          rw [mapGet_del_other _ _ _ hc2] at hn
          exact hn
    · intro c2 hc2
      dsimp only
      rw [mapGet_del_other _ _ _ hc2]

theorem restoreFold (ks : List Ctrl) : ∀ st : PState, RestoreInv st →
    (∀ c : Ctrl, mapGet st.controllerOriginalMethods c ≠ none → c ∈ ks) →
    RestoreInv (ks.foldl restoreControllerGetTargetMethods st) ∧
    ∀ c n, currentDesc (ks.foldl restoreControllerGetTargetMethods st) c n =
      mapGet c.descs n := by
  induction ks with
  | nil =>
    intro st hinv hks
    refine ⟨hinv, fun c n => ?_⟩
    simp only [List.foldl_nil]
    refine (hinv c).2 n ?_
    unfold savedOf
    cases hm : mapGet st.controllerOriginalMethods c with
    | none => rfl
    | some v => exact absurd (hks c (by rw [hm]; exact Option.noConfusion)) (List.not_mem_nil c)
  | cons c0 ks ih =>
    intro st hinv hks
    simp only [List.foldl_cons]
    obtain ⟨hinv', _, _, hdel, hframe⟩ := restore_char st c0 hinv
    refine ih _ hinv' ?_
    intro c hc
    by_cases hcc : c = c0
    · subst hcc
      exact absurd hdel hc
    · rw [hframe c hcc] at hc
      have := hks c hc
      cases List.mem_cons.mp this with
      | inl h => exact absurd h hcc
      | inr h => exact h

theorem restoreAll_clean (st : PState) (hinv : RestoreInv st) :
    RestoreInv (restoreControllersGetTargetMethods st) ∧
    ∀ c n, currentDesc (restoreControllersGetTargetMethods st) c n = mapGet c.descs n := by
  unfold restoreControllersGetTargetMethods
  refine restoreFold _ st hinv ?_
  intro c hc
  cases hm : mapGet st.controllerOriginalMethods c with
  | none => exact absurd hm hc
  | some v => exact mem_keys_of_mapGet_some _ _ _ hm

theorem sync_restoreInv (θ : Oracle) (st : PState) (c : Ctrl) (hinv : RestoreInv st) :
    RestoreInv (sync θ st c).1 := by
  unfold sync
  dsimp only
  have hov : RestoreInv (overrideControllerGetTargetMethods
      { st with
          identifiers := setAdd st.identifiers c.identifier
          controllers := mapSet st.controllers c.identifier
            (setAdd ((mapGet st.controllers c.identifier).getD []) c) } c).1 :=
    override_restoreInv _ c (RestoreInv_of_omip rfl hinv)
  split
  · exact hov
  · split
    · split
      · exact RestoreInv_of_omip
          (Eq.trans (searchActions_omip ..) (searchTargets_omip ..)) hov
      · split
        · exact RestoreInv_of_omip
            (Eq.trans (searchActions_omip ..) (searchTargets_omip ..)) hov
        · dsimp only
          refine foldlPres RestoreInv _ ?_ _ _ ?_
          · intro s t hs
            exact RestoreInv_of_omip (addTargetOne_omip ..) hs
          · dsimp only
            exact RestoreInv_of_omip
              (Eq.trans (searchActions_omip ..) (searchTargets_omip ..)) hov
    · split
      · simp_all
      · split
        · exact hov
        · dsimp only
          refine foldlPres RestoreInv _ ?_ _ _ ?_
          · intro s t hs
            exact RestoreInv_of_omip (addTargetOne_omip ..) hs
          · dsimp only
            exact hov

theorem restoreInv_ite (c : Prop) [Decidable c] (p q : PState × Bool)
    (hp : RestoreInv p.1) (hq : RestoreInv q.1) : RestoreInv (ite c p q).1 := by
  by_cases h : c
  · rw [if_pos h]
    exact hp
  · rw [if_neg h]
    exact hq

theorem unsync_restoreInv (st : PState) (c : Ctrl) (hinv : RestoreInv st) :
    RestoreInv (unsync st c).1 := by
  unfold unsync
  cases hm : mapGet st.controllers c.identifier with
  | none => exact hinv
  | some ctrls =>
    dsimp only
    have hres : RestoreInv (restoreControllerGetTargetMethods
        { st with controllers := mapSet st.controllers c.identifier (setDel ctrls c) } c) :=
      (restore_char
        { st with controllers := mapSet st.controllers c.identifier (setDel ctrls c) }
        c (RestoreInv_of_omip rfl hinv)).1
    refine restoreInv_ite _ _ _ ?_ ?_
    · refine restoreInv_ite _ _ _ ?_ ?_
      · refine restoreInv_ite _ _ _ ?_ ?_
        · refine RestoreInv_of_omip (removeAllProxyActionsByIdentifier_omip _ _) ?_
          exact RestoreInv_of_omip rfl hres
        · exact RestoreInv_of_omip rfl hres
      · exact hres
    · refine RestoreInv_of_omip rfl ?_
      refine restoreInv_ite _ _ _ ?_ ?_
      · refine restoreInv_ite _ _ _ ?_ ?_
        · refine RestoreInv_of_omip (removeAllProxyActionsByIdentifier_omip _ _) ?_
          exact RestoreInv_of_omip rfl hres
        · exact RestoreInv_of_omip rfl hres
      · exact hres

theorem connect_restoreInv (θ : Oracle) (st : PState) (hinv : RestoreInv st) :
    RestoreInv (connectPortal θ st).1 := by
  unfold connectPortal
  exact RestoreInv_of_omip (Eq.trans (searchActions_omip ..) (searchTargets_omip ..))
    (RestoreInv_of_omip rfl hinv)

theorem omip_ip {s1 s2 : PState} (h : OmIp s1 = OmIp s2) :
    s1.instProps = s2.instProps :=
  congrArg Prod.snd h

theorem currentDesc_eq_of_ip {s1 s2 : PState} (h : s1.instProps = s2.instProps)
    (c : Ctrl) (n : Str) : currentDesc s1 c n = currentDesc s2 c n := by
  unfold currentDesc
  rw [h]

/-- The four index groups the relay owns: target index maps, action maps,
the controller registry, and the original-method store (together with the
identifier caches they are keyed by). -/
def indicesEmpty (st : PState) : Prop :=
  st.identifiers = [] ∧
  st.searchedIdentifiersForTargets = [] ∧
  st.searchedIdentifiersForActions = [] ∧
  st.controllers = [] ∧
  st.targetsByController = [] ∧
  st.targetsByIdentifier = [] ∧
  st.targetsByTargetName = [] ∧
  st.controllerOriginalMethods = [] ∧
  st.actionToElementsMap = [] ∧
  st.elementToActionsMap = [] ∧
  st.identifierToActionElementsMap = [] ∧
  st.actionElementToIdentifiersMap = []

/-- `disconnect` on a restorable state: the invariant is kept, and when no
exception escapes, every index is empty and every instance shows its class
descriptors. -/
theorem disconnect_char (θ : Oracle) (st : PState) (hinv : RestoreInv st) :
    RestoreInv (disconnectPortal θ st).1 ∧
    ((disconnectPortal θ st).2 = false →
      indicesEmpty (disconnectPortal θ st).1 ∧
      ∀ c n, currentDesc (disconnectPortal θ st).1 c n = mapGet c.descs n) := by
  unfold disconnectPortal
  dsimp only
  obtain ⟨h1, hcur⟩ := restoreAll_clean (disconnectAllTargets θ { st with isConnected := false })
    (RestoreInv_of_omip (disconnectAllTargets_omip θ { st with isConnected := false })
      (RestoreInv_of_omip rfl hinv))
  by_cases hb : (removeAllProxyActions (restoreControllersGetTargetMethods
      (disconnectAllTargets θ { st with isConnected := false }))).2 = true
  · rw [if_pos hb]
    refine ⟨RestoreInv_of_omip (removeAllProxyActions_omip _) h1, ?_⟩
    intro hok
    simp at hok
  · rw [if_neg hb]
    have hip : (removeAllProxyActions (restoreControllersGetTargetMethods
        (disconnectAllTargets θ { st with isConnected := false }))).1.instProps =
        (restoreControllersGetTargetMethods
          (disconnectAllTargets θ { st with isConnected := false })).instProps :=
      omip_ip (removeAllProxyActions_omip _)
    have hcur' : ∀ c n, currentDesc
        ({ (removeAllProxyActions (restoreControllersGetTargetMethods
              (disconnectAllTargets θ { st with isConnected := false }))).1 with
            identifiers := [],
            searchedIdentifiersForTargets := [],
            searchedIdentifiersForActions := [],
            controllers := [],
            targetsByController := [],
            targetsByIdentifier := [],
            targetsByTargetName := [],
            controllerOriginalMethods := [],
            actionToElementsMap := [],
            elementToActionsMap := [],
            identifierToActionElementsMap := [],
            actionElementToIdentifiersMap := [] } : PState) c n = mapGet c.descs n := by
      intro c n
      refine Eq.trans (currentDesc_eq_of_ip ?_ c n) (hcur c n)
      exact hip
    refine ⟨?_, fun _ => ⟨?_, hcur'⟩⟩
    · intro c
      refine ⟨?_, ?_⟩
      · intro p hp
        unfold savedOf at hp
        dsimp only at hp
        simp [mapGet] at hp
      · intro n _
        exact hcur' c n
    · exact ⟨rfl, rfl, rfl, rfl, rfl, rfl, rfl, rfl, rfl, rfl, rfl, rfl⟩

theorem disconnect_restoreInv (θ : Oracle) (st : PState) (hinv : RestoreInv st) :
    RestoreInv (disconnectPortal θ st).1 :=
  (disconnect_char θ st hinv).1

theorem applyOp_restoreInv (θ : Oracle) (st : PState) (op : POp) (hinv : RestoreInv st) :
    RestoreInv (applyOp θ st op) := by
  cases op with
  | opSync c => exact sync_restoreInv θ st c hinv
  | opUnsync c => exact unsync_restoreInv st c hinv
  | opConnect => exact connect_restoreInv θ st hinv
  | opDisconnect => exact disconnect_restoreInv θ st hinv
  | opMutations ms => exact RestoreInv_of_omip (handleMutations_omip θ st ms) hinv
  | opInvokeProxy t m => exact RestoreInv_of_omip (invokeProxyAction_omip θ st t m) hinv
  | opSetDom d => exact RestoreInv_of_omip rfl hinv

theorem runOps_restoreInv (θ : Oracle) (d : Dom) (ops : List POp) :
    RestoreInv (runOps θ d ops) := by
  unfold runOps
  exact foldlPres RestoreInv (applyOp θ) (fun s op hs => applyOp_restoreInv θ s op hs)
    ops _ (RestoreInv_init d)

/-- A run that patches a real accessor before the relay disconnects. -/
def c5Ops : List POp := [POp.opSync ctrlWithTarget, POp.opConnect]

/-- Claim C5 (teardown completeness): from any reachable relay state, after
`disconnect()` runs to completion (no exception escapes the teardown), all
four indices — the target index maps, the action maps, the controller
registry, and the original-method store, together with their identifier
caches — are empty, and every accessor patched on every previously
registered instance has been restored to its original (class) property
descriptor. -/
theorem disconnect_teardown_complete (θ : Oracle) (d : Dom) (ops : List POp)
    (hok : (disconnectPortal θ (runOps θ d ops)).2 = false) :
    indicesEmpty (disconnectPortal θ (runOps θ d ops)).1 ∧
    ∀ c n, currentDesc (disconnectPortal θ (runOps θ d ops)).1 c n = mapGet c.descs n :=
  (disconnect_char θ (runOps θ d ops) (runOps_restoreInv θ d ops)).2 hok

theorem disconnect_teardown_complete_witness :
    indicesEmpty (disconnectPortal noThrowOracle (runOps noThrowOracle c4Dom c5Ops)).1 ∧
    ∀ c n, currentDesc (disconnectPortal noThrowOracle
      (runOps noThrowOracle c4Dom c5Ops)).1 c n = mapGet c.descs n :=
  disconnect_teardown_complete noThrowOracle c4Dom c5Ops (by decide)
